import Mathlib

/-!
# NodeVersionManager (src/utils/node-version-manager.js)

A shallow embedding of the class `NodeVersionManager` and a verification of its
specification.

Conventions of the embedding.

* A JavaScript string is a `List Char` (a sequence of Unicode characters; strings
  with lone surrogates are outside the model).  `null` is `none`.
* The collaborators that live outside the file (`PlatformUtils`, `FileUtils`,
  `process`, `path`, `JSON`) are fields of a `Host` record over an arbitrary
  state type: every theorem quantifies over all of their behaviours.
* `async` methods are functions from a `State` to an outcome and a new `State`;
  a rejected promise / thrown value is `Except.error`.
* `Logger` calls only write diagnostics and are left out.
-/

namespace NodeVersionManager

/-! ## JavaScript string primitives used by the class -/

/-- Text of a literal. -/
def lit (s : String) : List Char := s.toList

/-- JavaScript truthiness of a value that is `null` or a string: `null` and the
empty string are falsy. -/
def truthy : Option (List Char) → Bool
  | none => false
  | some [] => false
  | some (_ :: _) => true

/-- The method `String.prototype.includes(pat)`: `pat` occurs in `s` as a substring. -/
def includes : List Char → List Char → Bool
  | [], pat => pat.isEmpty
  | c :: s, pat => pat.isPrefixOf (c :: s) || includes s pat

/-- The method `String.prototype.startsWith(pat)`. -/
def startsWith (s pat : List Char) : Bool := pat.isPrefixOf s

/-- The expression `s.split(sep)[0]` for a one-character separator: the text before the first
separator (all of `s` when there is none). -/
def splitHead (sep : Char) (s : List Char) : List Char :=
  s.takeWhile (fun c => c != sep)

/-- The expression `s.replace(c, empty)` for a one-character pattern: the first occurrence of
`c` is removed. -/
def replaceFirst (c : Char) (s : List Char) : List Char := s.erase c

/-- The characters matched by `StrWhiteSpaceChar` (ECMAScript `WhiteSpace` and
`LineTerminator`). -/
def isStrWhiteSpaceChar (c : Char) : Bool :=
  let n := c.toNat
  n == 0x9 || n == 0xA || n == 0xB || n == 0xC || n == 0xD || n == 0x20 || n == 0xA0 ||
  n == 0x1680 || (0x2000 ≤ n && n ≤ 0x200A) || n == 0x2028 || n == 0x2029 || n == 0x202F ||
  n == 0x205F || n == 0x3000 || n == 0xFEFF

/-- The method `String.prototype.trim()`. -/
def trim (s : List Char) : List Char :=
  ((s.dropWhile isStrWhiteSpaceChar).reverse.dropWhile isStrWhiteSpaceChar).reverse

/-- A JavaScript Number as far as `parseInt` can produce one.  `+0` and `-0` are both
`finite 0`: the strict comparison does not tell them apart. -/
inductive JSNumber where
  | nan
  | finite (z : Int)
  | infinity (negative : Bool)
  deriving DecidableEq, Repr

/-- The operator `!==` on two Numbers: `NaN` is different from everything, itself included. -/
def JSNumber.strictNe : JSNumber → JSNumber → Bool
  | .nan, _ => true
  | _, .nan => true
  | a, b => a != b

/-- Rounding of a natural number to the nearest IEEE-754 double (ties to even);
`none` is an overflow to infinity. -/
def toDouble (n : Nat) : Option Nat :=
  if n < 2 ^ 53 then some n
  else
    let e := Nat.log2 n - 52
    let q := n / 2 ^ e
    let r := n % 2 ^ e
    let half := 2 ^ (e - 1)
    let q1 := if half < r || (r == half && q % 2 == 1) then q + 1 else q
    let v := q1 * 2 ^ e
    if 2 ^ 1024 ≤ v then none else some v

/-- Value of a character as a digit (`0-9`, `a-z`, `A-Z`). -/
def digitValue (c : Char) : Option Nat :=
  let n := c.toNat
  if 48 ≤ n ∧ n ≤ 57 then some (n - 48)
  else if 97 ≤ n ∧ n ≤ 122 then some (n - 87)
  else if 65 ≤ n ∧ n ≤ 90 then some (n - 55)
  else none

/-- Whether `c` is a digit of radix `R`. -/
def isRadixDigit (R : Nat) (c : Char) : Bool :=
  match digitValue c with
  | some d => decide (d < R)
  | none => false

/-- The mathematical integer written by the digits `z` in radix `R`, most significant first. -/
def mathInt (R : Nat) (z : List Char) : Nat :=
  z.foldl (fun acc c => acc * R + (digitValue c).getD 0) 0

/-- Steps 7-12 of `parseInt`: the longest prefix of radix-`R` digits of `s`, read as a Number
with the given sign. -/
def parseDigits (negative : Bool) (R : Nat) (s : List Char) : JSNumber :=
  let z := s.takeWhile (isRadixDigit R)
  if z.isEmpty then .nan
  else
    match toDouble (mathInt R z) with
    | none => .infinity negative
    | some v => .finite (if negative then -(v : Int) else (v : Int))

/-- Step 6 of `parseInt` with an undefined radix: a prefix `0x` or `0X` selects radix 16,
otherwise the radix is 10. -/
def parseUnsigned (negative : Bool) : List Char → JSNumber
  | '0' :: 'x' :: rest => parseDigits negative 16 rest
  | '0' :: 'X' :: rest => parseDigits negative 16 rest
  | s => parseDigits negative 10 s

/-- The global function `parseInt(string)` with one argument (ECMAScript 19.2.5): leading white
space is skipped, then an optional sign, then an optional hexadecimal prefix, then digits.  The
value is the exact one rounded to a double (beyond 20 significant decimal digits ECMAScript
allows an implementation to approximate; the model does not). -/
def parseInt (s : List Char) : JSNumber :=
  match s.dropWhile isStrWhiteSpaceChar with
  | '-' :: rest => parseUnsigned true rest
  | '+' :: rest => parseUnsigned false rest
  | t => parseUnsigned false t

/-! ## Manager state -/

/-- The fields of a `NodeVersionManager` instance. -/
structure Manager where
  originalVersion : Option (List Char)
  requiredVersion : Option (List Char)
  nvmAvailable : Bool
  nAvailable : Bool
  deriving DecidableEq, Repr

/-- The constructor: `new NodeVersionManager()`. -/
def Manager.new : Manager :=
  { originalVersion := none, requiredVersion := none, nvmAvailable := false, nAvailable := false }

/-! ## Pure methods -/

/-- The major component of a version text: `version.split(dot)[0]`. -/
def major (version : List Char) : List Char := splitHead '.' version

/-- Method `needsVersionSwitch` (lines 124-134). -/
def needsVersionSwitch (m : Manager) : Bool :=
  if !truthy m.requiredVersion || !truthy m.originalVersion then false
  else
    match m.originalVersion, m.requiredVersion with
    | some original, some required =>
      let currentMajor := parseInt (major original)
      let requiredMajor := parseInt (major required)
      currentMajor.strictNe requiredMajor
    | _, _ => false

/-! ## JSON values (the result of `JSON.parse`) -/

/-- A value produced by `JSON.parse`.  Of a number only its truthiness is observed by the
class, so a number carries whether it is zero.  An object lists each key once. -/
inductive Json where
  | null
  | bool (b : Bool)
  | number (isZero : Bool)
  | string (s : List Char)
  | array (items : List Json)
  | object (members : List (List Char × Json))

/-- JavaScript truthiness of a value; `none` is `undefined`. -/
def Json.truthy : Option Json → Bool
  | none => false
  | some .null => false
  | some (.bool b) => b
  | some (.number isZero) => !isZero
  | some (.string s) => !s.isEmpty
  | some (.array _) => true
  | some (.object _) => true

/-- Property read `value.key` for a key that is no built-in property (`engines`, `node`):
`none` is a `TypeError` (read on `null`), `some none` is `undefined`. -/
def Json.getProp (key : List Char) : Json → Option (Option Json)
  | .null => none
  | .object members => some (members.lookup key)
  | _ => some none

/-- The call `range.includes(pat)` on a parsed value: substring search on a string, membership
on an array, `none` (a `TypeError`: `includes` is not a function) on anything else. -/
def Json.includes (pat : List Char) : Json → Option Bool
  | .string s => some (NodeVersionManager.includes s pat)
  | .array items =>
    some (items.any fun item => match item with
      | .string s => decide (s = pat)
      | _ => false)
  | _ => none

/-! ## Faults, the host and the execution state -/

/-- A thrown value: one raised by a collaborator or by the work (`thrown`), an `Error` object
made by the class (`error`), or a `TypeError` of the runtime. -/
inductive Fault (ε : Type) where
  | thrown (e : ε)
  | error (message : List Char)
  | typeError
  deriving DecidableEq, Repr

/-- A call to a collaborator, as recorded in the trace. -/
inductive Call where
  | executeCommand (command : List Char) (args : List (Option (List Char)))
  | commandExists (command : List Char)
  | fileExists (path : List Char)
  | readFile (path : List Char)
  | callback
  deriving DecidableEq, Repr

/-- The collaborators of the class, over a host state `σ`; `ε` is the type of the values
they throw.  `executeCommand` resolves to the captured standard output; an argument of a
command is a string or `null` (`none`). -/
structure Host (σ ε : Type) where
  /-- Call `PlatformUtils.executeCommand(command, args)`, resolving to `result.stdout`. -/
  executeCommand : List Char → List (Option (List Char)) → σ → Except ε (List Char) × σ
  /-- Modelled from the spec: `PlatformUtils.commandExists(command)` is not part of the source
  file; by section 4.1 it "never fails outward - resolution failure yields false". -/
  commandExists : List Char → σ → Bool × σ
  /-- Call `FileUtils.exists(path)`. -/
  fileExists : List Char → σ → Except ε Bool × σ
  /-- Call `FileUtils.readFile(path)`. -/
  readFile : List Char → σ → Except ε (List Char) × σ
  /-- Call `JSON.parse(text)`. -/
  jsonParse : List Char → Except ε Json
  /-- Value of `process.env.NVM_DIR`. -/
  nvmDir : σ → Option (List Char)
  /-- Call `PlatformUtils.getHomeDir()`. -/
  getHomeDir : σ → Except ε (List Char)
  /-- Call `process.cwd()`. -/
  cwd : σ → Except ε (List Char)
  /-- Call `path.join(...)`. -/
  pathJoin : List (List Char) → List Char

/-- Execution state: the manager instance (`this`), the host state and the trace of the
collaborator calls made so far, oldest first. -/
structure State (σ : Type) where
  manager : Manager
  host : σ
  calls : List Call

/-- An `async` computation: it ends with a value or a fault, in a new state. -/
def Async (σ ε α : Type) : Type := State σ → Except (Fault ε) α × State σ

/-- Resolve with a value. -/
def Async.pure {σ ε α : Type} (a : α) : Async σ ε α := fun s => (.ok a, s)

/-- Sequencing (`await`): a fault of the first computation skips the second. -/
def Async.bind {σ ε α β : Type} (x : Async σ ε α) (f : α → Async σ ε β) : Async σ ε β :=
  fun s =>
    match x s with
    | (.ok a, s1) => f a s1
    | (.error e, s1) => (.error e, s1)

/-- The statement `throw e`. -/
def Async.throw {σ ε α : Type} (e : Fault ε) : Async σ ε α := fun s => (.error e, s)

/-- The statement `try body catch (error) handler`. -/
def Async.tryCatch {σ ε α : Type} (body : Async σ ε α) (handler : Fault ε → Async σ ε α) :
    Async σ ε α :=
  fun s =>
    match body s with
    | (.ok a, s1) => (.ok a, s1)
    | (.error e, s1) => handler e s1

/-- The statement `try body finally fin`: `fin` runs on every exit of `body`; the outcome is
that of `body` unless `fin` itself throws. -/
def Async.tryFinally {σ ε α : Type} (body : Async σ ε α) (fin : Async σ ε Unit) : Async σ ε α :=
  fun s =>
    match body s with
    | (r, s1) =>
      match fin s1 with
      | (.ok _, s2) => (r, s2)
      | (.error e, s2) => (.error e, s2)

instance {σ ε : Type} : Monad (Async σ ε) where
  pure := Async.pure
  bind := Async.bind

/-- Read of the fields of `this`. -/
def getManager {σ ε : Type} : Async σ ε Manager := fun s => (.ok s.manager, s)

/-- Assignment to fields of `this`. -/
def modifyManager {σ ε : Type} (f : Manager → Manager) : Async σ ε Unit :=
  fun s => (.ok (), { s with manager := f s.manager })

/-- A runtime operation that may raise a `TypeError` (`none`). -/
def orTypeError {σ ε α : Type} : Option α → Async σ ε α
  | some a => Async.pure a
  | none => Async.throw .typeError

/-- A host query that reads the host state and may throw. -/
def hostRead {σ ε α : Type} (f : σ → Except ε α) : Async σ ε α :=
  fun s =>
    match f s.host with
    | .ok a => (.ok a, s)
    | .error e => (.error (.thrown e), s)

/-- The call `PlatformUtils.executeCommand(command, args)`, recorded in the trace. -/
def PlatformUtils.executeCommand {σ ε : Type} (h : Host σ ε) (command : List Char)
    (args : List (Option (List Char))) : Async σ ε (List Char) :=
  fun s =>
    match h.executeCommand command args s.host with
    | (.ok out, t) =>
      (.ok out, { s with host := t, calls := s.calls ++ [Call.executeCommand command args] })
    | (.error e, t) =>
      (.error (.thrown e),
        { s with host := t, calls := s.calls ++ [Call.executeCommand command args] })

/-- The call `PlatformUtils.commandExists(command)`, recorded in the trace. -/
def PlatformUtils.commandExists {σ ε : Type} (h : Host σ ε) (command : List Char) :
    Async σ ε Bool :=
  fun s =>
    (.ok (h.commandExists command s.host).1,
      { s with host := (h.commandExists command s.host).2,
               calls := s.calls ++ [Call.commandExists command] })

/-- The call `FileUtils.exists(path)`, recorded in the trace. -/
def FileUtils.fileExists {σ ε : Type} (h : Host σ ε) (path : List Char) : Async σ ε Bool :=
  fun s =>
    match h.fileExists path s.host with
    | (.ok b, t) => (.ok b, { s with host := t, calls := s.calls ++ [Call.fileExists path] })
    | (.error e, t) =>
      (.error (.thrown e), { s with host := t, calls := s.calls ++ [Call.fileExists path] })

/-- The call `FileUtils.readFile(path)`, recorded in the trace. -/
def FileUtils.readFile {σ ε : Type} (h : Host σ ε) (path : List Char) :
    Async σ ε (List Char) :=
  fun s =>
    match h.readFile path s.host with
    | (.ok text, t) => (.ok text, { s with host := t, calls := s.calls ++ [Call.readFile path] })
    | (.error e, t) =>
      (.error (.thrown e), { s with host := t, calls := s.calls ++ [Call.readFile path] })

/-- The call `JSON.parse(text)`. -/
def jsonParse {σ ε : Type} (h : Host σ ε) (text : List Char) : Async σ ε Json :=
  fun s =>
    match h.jsonParse text with
    | .ok v => (.ok v, s)
    | .error e => (.error (.thrown e), s)

/-- The caller-supplied work `callback()`: it acts on the host state only, and its call is
recorded in the trace. -/
def runCallback {σ ε ρ : Type} (callback : σ → Except ε ρ × σ) : Async σ ε ρ :=
  fun s =>
    match callback s.host with
    | (.ok r, t) => (.ok r, { s with host := t, calls := s.calls ++ [Call.callback] })
    | (.error e, t) =>
      (.error (.thrown e), { s with host := t, calls := s.calls ++ [Call.callback] })

/-- The method `Array.prototype.join(sep)` on an array of strings and `null`s: `null` joins as
the empty string. -/
def joinArgs (sep : List Char) (args : List (Option (List Char))) : List Char :=
  sep.intercalate (args.map fun a => a.getD [])

/-- The conversion `ToString` of a value that is a string or `null`. -/
def toStringArg : Option (List Char) → List Char
  | some s => s
  | none => lit "null"

/-! ## The methods of the class -/

/-- The expression for the nvm script path (lines 55-57 and 260-262). -/
def nvmScriptPath {σ ε : Type} (h : Host σ ε) : Async σ ε (List Char) :=
  fun s =>
    if truthy (h.nvmDir s.host) then
      (.ok (h.pathJoin [toStringArg (h.nvmDir s.host), lit "nvm.sh"]), s)
    else
      match h.getHomeDir s.host with
      | .ok home => (.ok (h.pathJoin [home, lit ".nvm", lit "nvm.sh"]), s)
      | .error e => (.error (.thrown e), s)

/-- Method `getCurrentNodeVersion` (lines 40-47). -/
def getCurrentNodeVersion {σ ε : Type} (h : Host σ ε) : Async σ ε (List Char) :=
  Async.tryCatch
    (do
      let stdout ← PlatformUtils.executeCommand h (lit "node") [some (lit "--version")]
      return replaceFirst 'v' stdout)
    (fun _ => Async.throw (.error (lit "無法取得 Node.js 版本")))

/-- Method `checkNvmAvailable` (lines 52-63). -/
def checkNvmAvailable {σ ε : Type} (h : Host σ ε) : Async σ ε Bool :=
  Async.tryCatch
    (do
      let nvmPath ← nvmScriptPath h
      FileUtils.fileExists h nvmPath)
    (fun _ => pure false)

/-- Method `checkNAvailable` (lines 68-70). -/
def checkNAvailable {σ ε : Type} (h : Host σ ε) : Async σ ε Bool :=
  PlatformUtils.commandExists h (lit "n")

/-- A `TypeError` of the runtime, raised inside a synchronous method. -/
inductive TypeError where
  | notAFunction
  | nullProperty
  deriving DecidableEq, Repr

/-- Method `parseVersionRange` (lines 105-119), on the value found in the manifest. -/
def parseVersionRange (range : Json) : Except TypeError (Option (List Char)) :=
  match range.includes (lit ">=18.0.0") with
  | none => .error .notAFunction
  | some ge18 =>
    if ge18 && (range.includes (lit "<24.0.0")).getD false then .ok (some (lit "22.11.0"))
    else if ge18 && (range.includes (lit "<23.0.0")).getD false then .ok (some (lit "20.18.0"))
    else if ge18 then .ok (some (lit "18.20.0"))
    else .ok none

/-- Lines 88-92 of `getRequiredVersion`: the test `packageJson.engines &&
packageJson.engines.node` and the call of `parseVersionRange` on the constraint; absent when
the test is falsy. -/
def engineConstraintVersion (packageJson : Json) : Except TypeError (Option (List Char)) :=
  match packageJson.getProp (lit "engines") with
  | none => .error .nullProperty
  | some none => .ok none
  | some (some engines) =>
    if Json.truthy (some engines) then
      match engines.getProp (lit "node") with
      | none => .error .nullProperty
      | some none => .ok none
      | some (some nodeRange) =>
        if Json.truthy (some nodeRange) then parseVersionRange nodeRange else .ok none
    else .ok none

/-- A synchronous computation inside an `async` method. -/
def liftSync {σ ε α : Type} : Except TypeError α → Async σ ε α
  | .ok a => Async.pure a
  | .error _ => Async.throw .typeError

/-- Lines 85-95 of `getRequiredVersion`: the version from `package.json`. -/
def manifestVersion {σ ε : Type} (h : Host σ ε) : Async σ ε (Option (List Char)) := do
  let cwd ← hostRead h.cwd
  let packageJsonPath := h.pathJoin [cwd, lit "package.json"]
  if ← FileUtils.fileExists h packageJsonPath then
    let text ← FileUtils.readFile h packageJsonPath
    let packageJson ← jsonParse h text
    liftSync (engineConstraintVersion packageJson)
  else
    return none

/-- Method `getRequiredVersion` (lines 75-100). -/
def getRequiredVersion {σ ε : Type} (h : Host σ ε) : Async σ ε (Option (List Char)) :=
  Async.tryCatch
    (do
      let cwd ← hostRead h.cwd
      let nvmrcPath := h.pathJoin [cwd, lit ".nvmrc"]
      if ← FileUtils.fileExists h nvmrcPath then
        let version ← FileUtils.readFile h nvmrcPath
        return some (trim version)
      else
        manifestVersion h)
    (fun _ => pure none)

/-- Method `initialize` (lines 20-35). -/
def initializeManager {σ ε : Type} (h : Host σ ε) : Async σ ε Unit := do
  let originalVersion ← getCurrentNodeVersion h
  modifyManager fun m => { m with originalVersion := some originalVersion }
  let nvmAvailable ← checkNvmAvailable h
  modifyManager fun m => { m with nvmAvailable := nvmAvailable }
  let nAvailable ← checkNAvailable h
  modifyManager fun m => { m with nAvailable := nAvailable }
  let requiredVersion ← getRequiredVersion h
  modifyManager fun m => { m with requiredVersion := requiredVersion }

/-- Method `executeNvmCommand` (lines 259-268). -/
def executeNvmCommand {σ ε : Type} (h : Host σ ε) (args : List (Option (List Char))) :
    Async σ ε (List Char) := do
  let nvmScript ← nvmScriptPath h
  let command := lit "source " ++ nvmScript ++ lit " && nvm " ++ joinArgs (lit " ") args
  PlatformUtils.executeCommand h (lit "bash") [some (lit "-c"), some command]

/-- The post-switch verification shared by both backends (lines 186-192 and 209-215): the
version is read again and must start with the major component of the required version. -/
def verifySwitch {σ ε : Type} (h : Host σ ε) : Async σ ε Bool := do
  let newVersion ← getCurrentNodeVersion h
  let self ← getManager
  let required ← orTypeError self.requiredVersion
  if startsWith newVersion (major required) then
    return true
  else
    Async.throw (.error (lit "版本切換失敗，當前版本: " ++ newVersion))

/-- Method `switchWithNvm` (lines 171-197). -/
def switchWithNvm {σ ε : Type} (h : Host σ ε) : Async σ ε Bool :=
  Async.tryCatch
    (do
      let self ← getManager
      let installedVersions ← executeNvmCommand h [some (lit "list")]
      if !includes installedVersions (toStringArg self.requiredVersion) then
        let _ ← executeNvmCommand h [some (lit "install"), self.requiredVersion]
        let _ ← executeNvmCommand h [some (lit "use"), self.requiredVersion]
        verifySwitch h
      else
        let _ ← executeNvmCommand h [some (lit "use"), self.requiredVersion]
        verifySwitch h)
    (fun _ => pure false)

/-- Method `switchWithN` (lines 202-220). -/
def switchWithN {σ ε : Type} (h : Host σ ε) : Async σ ε Bool :=
  Async.tryCatch
    (do
      let self ← getManager
      let _ ← PlatformUtils.executeCommand h (lit "n") [self.requiredVersion]
      verifySwitch h)
    (fun _ => pure false)

/-- Method `switchToRequiredVersion` (lines 139-166). -/
def switchToRequiredVersion {σ ε : Type} (h : Host σ ε) : Async σ ε Bool := do
  let self ← getManager
  if !needsVersionSwitch self then
    return true
  else if !truthy self.requiredVersion then
    return false
  else
    Async.tryCatch
      (if self.nvmAvailable then switchWithNvm h
       else if self.nAvailable then switchWithN h
       else pure false)
      (fun _ => pure false)

/-- The `try` block of `switchBackToOriginal` (lines 240-248): the activation of the original
version through the available backend, then a last read of the version. -/
def activateOriginal {σ ε : Type} (h : Host σ ε) (self : Manager) : Async σ ε Bool := do
  if self.nvmAvailable then
    let _ ← executeNvmCommand h [some (lit "use"), self.originalVersion]
  else if self.nAvailable then
    let _ ← PlatformUtils.executeCommand h (lit "n") [self.originalVersion]
  let _finalVersion ← getCurrentNodeVersion h
  return true

/-- Method `switchBackToOriginal` (lines 225-254). -/
def switchBackToOriginal {σ ε : Type} (h : Host σ ε) : Async σ ε Bool := do
  let self ← getManager
  if !truthy self.originalVersion then
    return true
  else
    let currentVersion ← getCurrentNodeVersion h
    if some currentVersion = self.originalVersion then
      return true
    else
      Async.tryCatch (activateOriginal h self) (fun _ => pure false)

/-- Static method `withCorrectVersion` (lines 273-297). -/
def withCorrectVersion {σ ε ρ : Type} (h : Host σ ε) (callback : σ → Except ε ρ × σ) :
    Async σ ε ρ :=
  fun s =>
    Async.tryFinally
      (do
        initializeManager h
        let _switchSuccess ← switchToRequiredVersion h
        let result ← runCallback callback
        return result)
      (Async.tryCatch
        (do
          let _ ← switchBackToOriginal h
          return ())
        (fun _ => pure ()))
      { s with manager := Manager.new }

/-! ## A simulated host

A small machine on which the class can be run: `node --version` prints the active version,
`n <version>` installs and activates, the nvm script knows `list`, `install <version>` and
`use <version>` (which fails for a version that nvm has not installed). -/

/-- State of the simulated machine. -/
structure Machine where
  /-- The text printed by `node --version`. -/
  nodeOutput : List Char
  /-- The versions installed through nvm. -/
  installed : List (List Char)
  /-- The files: path and contents. -/
  files : List (List Char × List Char)
  /-- Whether the executable `n` is on the search path. -/
  hasN : Bool
  deriving DecidableEq, Repr

/-- How the simulated machine is set up: `nodeBroken` makes `node --version` fail;
`shadowed` is a machine whose `node` on the search path is not the one the backends manage,
so that activations succeed without changing what `node --version` prints. -/
structure Setup where
  nodeBroken : Bool
  shadowed : Bool
  deriving DecidableEq, Repr

/-- The text after a given beginning, if `s` begins with it. -/
def afterBeginning : List Char → List Char → Option (List Char)
  | [], s => some s
  | _ :: _, [] => none
  | p :: ps, c :: cs => if p = c then afterBeginning ps cs else none

/-- Activation of a version on the simulated machine. -/
def Machine.activate (cfg : Setup) (v : List Char) (m : Machine) : Machine :=
  if cfg.shadowed then m else { m with nodeOutput := 'v' :: v }

/-- The nvm script of the simulated machine, given the text after `nvm `. -/
def Machine.nvm (cfg : Setup) (rest : List Char) (m : Machine) :
    Except (List Char) (List Char) × Machine :=
  if rest = lit "list" then (.ok ((lit "\n").intercalate m.installed), m)
  else
    match afterBeginning (lit "install ") rest with
    | some v => (.ok [], Machine.activate cfg v { m with installed := v :: m.installed })
    | none =>
      match afterBeginning (lit "use ") rest with
      | some v =>
        if v ∈ m.installed then (.ok [], Machine.activate cfg v m)
        else (.error (lit "N/A: version is not yet installed"), m)
      | none => (.error (lit "nvm: unknown subcommand"), m)

/-- The text of a manifest with an engine constraint, and its parse. -/
def manifestText : List Char :=
  lit "\x7b\"engines\":\x7b\"node\":\">=18.0.0 <23.0.0\"\x7d\x7d"

/-- The value of `manifestText`. -/
def manifestJson : Json :=
  .object [(lit "engines", .object [(lit "node", .string (lit ">=18.0.0 <23.0.0"))])]

/-- The simulated host: home directory `/home/dev`, working directory `/work`, no `NVM_DIR`. -/
def simHost (cfg : Setup) : Host Machine (List Char) where
  executeCommand command args m :=
    if command = lit "node" ∧ args = [some (lit "--version")] then
      if cfg.nodeBroken then (.error (lit "spawn node ENOENT"), m) else (.ok m.nodeOutput, m)
    else if command = lit "n" then
      match args with
      | [some v] => (.ok [], Machine.activate cfg v m)
      | _ => (.error (lit "n: bad arguments"), m)
    else if command = lit "bash" then
      match args with
      | [some _, some script] =>
        match afterBeginning (lit "source /home/dev/.nvm/nvm.sh && nvm ") script with
        | some rest => Machine.nvm cfg rest m
        | none => (.error (lit "bash: command failed"), m)
      | _ => (.error (lit "bash: bad arguments"), m)
    else (.error (lit "command not found"), m)
  commandExists command m := (decide (command = lit "n") && m.hasN, m)
  fileExists path m := (.ok (m.files.lookup path).isSome, m)
  readFile path m :=
    match m.files.lookup path with
    | some text => (.ok text, m)
    | none => (.error (lit "ENOENT"), m)
  jsonParse text :=
    if text = manifestText then .ok manifestJson else .error (lit "SyntaxError")
  nvmDir _ := none
  getHomeDir _ := .ok (lit "/home/dev")
  cwd _ := .ok (lit "/work")
  pathJoin parts := (lit "/").intercalate parts

/-- The usual setup: `node` works and follows the backends. -/
def plainSetup : Setup := { nodeBroken := false, shadowed := false }

/-- The nvm script file of the simulated machine. -/
def nvmScriptFile : List Char × List Char := (lit "/home/dev/.nvm/nvm.sh", lit "# nvm")

/-- A start state: a fresh manager and an empty trace. -/
def startState (m : Machine) : State Machine := { manager := Manager.new, host := m, calls := [] }

/-! ## Specification-side definitions -/

/-- The table of known range shapes of section 4.2, in order: a test on the constraint text and
the version it resolves to. -/
def knownShapes : List ((List Char → Bool) × List Char) :=
  [ (fun range => includes range (lit ">=18.0.0") && includes range (lit "<24.0.0"),
      lit "22.11.0"),
    (fun range => includes range (lit ">=18.0.0") && includes range (lit "<23.0.0"),
      lit "20.18.0"),
    (fun range => includes range (lit ">=18.0.0"), lit "18.20.0") ]

/-- The mapping `RangeMapper.map` of section 4.2: the version of the first shape of the table
that matches, absent when none does. -/
def rangeMapperMap (range : List Char) : Option (List Char) :=
  (knownShapes.find? fun shape => shape.1 range).map fun shape => shape.2

/-- A decimal numeral without a leading zero, of at most 15 digits (so that its value is a
Number exactly). -/
def isPlainNumeral (z : List Char) : Bool :=
  match z with
  | [] => false
  | c :: cs =>
    (c :: cs).all (isRadixDigit 10) && (c != '0' || cs.isEmpty) && decide ((c :: cs).length ≤ 15)

/-! ## Definitions used by the statements -/

section StatementDefinitions

variable {σ ε α : Type}

/-- Digit value of a character, zero for a character that is no digit. -/
def digitOf (c : Char) : Nat := (digitValue c).getD 0

/-- The call of `node --version`, as it appears in the trace. -/
def versionCall : Call := .executeCommand (lit "node") [some (lit "--version")]

/-- The fault raised by `getCurrentNodeVersion`. -/
def detectionFault : Fault ε := .error (lit "無法取得 Node.js 版本")

/-- A computation that never throws. -/
def Async.NoThrow (x : Async σ ε α) : Prop := ∀ s, ∃ a s1, x s = (.ok a, s1)

/-- A computation that leaves the fields of the manager alone. -/
def Async.KeepsManager (x : Async σ ε α) : Prop := ∀ s, (x s).2.manager = s.manager

/-- The engine constraint of a parsed manifest: the member `node` of its member `engines`,
when the manifest has one. -/
def engineConstraint (packageJson : Json) : Option Json :=
  match packageJson with
  | .object members =>
    match members.lookup (lit "engines") with
    | some (.object engines) => engines.lookup (lit "node")
    | _ => none
  | _ => none

/-- The resolution order of section 4.2, as a function of what the host answers from the
host state `t0`: (1) when the version-pin file exists, its trimmed contents; (2) else, when the
manifest exists and contains an engine constraint, the range mapping of the constraint;
(3) else absent; and absent on any read or parse fault. -/
def requiredVersionSpec (h : Host σ ε) (t0 : σ) : Option (List Char) :=
  match h.cwd t0 with
  | .error _ => none
  | .ok cwd =>
    match h.fileExists (h.pathJoin [cwd, lit ".nvmrc"]) t0 with
    | (.error _, _) => none
    | (.ok true, t1) =>
      match h.readFile (h.pathJoin [cwd, lit ".nvmrc"]) t1 with
      | (.ok contents, _) => some (trim contents)
      | (.error _, _) => none
    | (.ok false, t1) =>
      match h.cwd t1 with
      | .error _ => none
      | .ok cwd1 =>
        match h.fileExists (h.pathJoin [cwd1, lit "package.json"]) t1 with
        | (.error _, _) => none
        | (.ok false, _) => none
        | (.ok true, t2) =>
          match h.readFile (h.pathJoin [cwd1, lit "package.json"]) t2 with
          | (.error _, _) => none
          | (.ok text, _) =>
            match h.jsonParse text with
            | .error _ => none
            | .ok packageJson =>
              match engineConstraint packageJson with
              | none => none
              | some constraint =>
                match parseVersionRange constraint with
                | .ok version => version
                | .error _ => none

/-- The active version at host state `t` is `v`: the print-version command succeeds there,
changes nothing, and its output without the first `v` is `v`. -/
def ReadsVersion (h : Host σ ε) (t : σ) (v : List Char) : Prop :=
  ∃ out, h.executeCommand (lit "node") [some (lit "--version")] t = (.ok out, t) ∧
    replaceFirst 'v' out = v

/-- The backend that the manager `m` uses works for the version `v`: the activation command
of the preferred available backend, run from any state, leaves `v` active. -/
def ActivationWorks (h : Host σ ε) (m : Manager) (v : List Char) : Prop :=
  (m.nvmAvailable = true ∧ ∀ st : State σ,
      ReadsVersion h (executeNvmCommand h [some (lit "use"), some v] st).2.host v) ∨
  (m.nvmAvailable = false ∧ m.nAvailable = true ∧ ∀ st : State σ,
      ReadsVersion h (PlatformUtils.executeCommand h (lit "n") [some v] st).2.host v)

/-- A machine with nvm, on which the active `18.20.0` was not installed through nvm, in a
project whose version-pin file asks for `20.18.0`. -/
def systemNodeMachine : Machine :=
  { nodeOutput := lit "v18.20.0", installed := [],
    files := [nvmScriptFile, (lit "/work/.nvmrc", lit "20.18.0\n")], hasN := false }

/-- A machine with `n` and without nvm, with `18.20.0` active, in a project whose version-pin
file asks for `20.18.0`. -/
def machineWithN : Machine :=
  { nodeOutput := lit "v18.20.0", installed := [],
    files := [(lit "/work/.nvmrc", lit "20.18.0\n")], hasN := true }

/-- A work unit that returns `7` and leaves the machine alone. -/
def quietWork (m : Machine) : Except (List Char) Nat × Machine := (.ok 7, m)

/-- A work unit that raises the fault `boom` and leaves the machine alone. -/
def failingWork (m : Machine) : Except (List Char) Nat × Machine := (.error (lit "boom"), m)

/-- A machine on which `20.18.0` is active while the project asks for `2.0.0`. -/
def node20Machine : Machine :=
  { nodeOutput := lit "v20.18.0", installed := [], files := [nvmScriptFile], hasN := true }

/-- The setup in which the backends do not reach the `node` on the search path. -/
def shadowedSetup : Setup := { nodeBroken := false, shadowed := true }

/-- A machine with `n`, with `18.20.0` active, in a project without version-pin file whose
manifest is `manifestText`. -/
def manifestMachine : Machine :=
  { nodeOutput := lit "v18.20.0", installed := [],
    files := [(lit "/work/package.json", manifestText)], hasN := true }

/-- A state in which `18.20.0` is recorded as original and `n` is available, on a machine where
`20.18.0` is active. -/
def restoreState : State Machine :=
  { manager := ⟨some (lit "18.20.0"), none, false, true⟩,
    host := { nodeOutput := lit "v20.18.0", installed := [], files := [], hasN := true },
    calls := [] }

end StatementDefinitions

/-! ## Lemmas on the string primitives -/

theorem includes_iff_infix (s pat : List Char) : includes s pat = true ↔ pat <:+: s := by
  induction s with
  | nil =>
    cases pat <;> simp [includes]
  | cons c s ih =>
    rw [includes, Bool.or_eq_true, ih, List.isPrefixOf_iff_prefix, List.infix_cons_iff]

theorem isRadixDigit_ten (c : Char) :
    isRadixDigit 10 c = true ↔ 48 ≤ c.toNat ∧ c.toNat ≤ 57 := by
  unfold isRadixDigit digitValue
  simp only []
  split_ifs with h1 h2 h3 <;> simp <;> omega

theorem digitValue_of_digit {c : Char} (h : isRadixDigit 10 c = true) :
    digitValue c = some (c.toNat - 48) := by
  have hc := (isRadixDigit_ten c).1 h
  unfold digitValue
  simp [hc]

theorem not_whiteSpace_of_digit {c : Char} (h : isRadixDigit 10 c = true) :
    isStrWhiteSpaceChar c = false := by
  have hc := (isRadixDigit_ten c).1 h
  unfold isStrWhiteSpaceChar
  simp only [Bool.or_eq_false_iff, beq_eq_false_iff_ne, Bool.and_eq_false_iff, ne_eq,
    decide_eq_false_iff_not]
  omega

theorem mathInt_foldl (R : Nat) (z : List Char) (acc : Nat) :
    z.foldl (fun acc c => acc * R + (digitValue c).getD 0) acc
      = acc * R ^ z.length + mathInt R z := by
  induction z generalizing acc with
  | nil => simp [mathInt]
  | cons c cs ih =>
    simp only [List.foldl_cons, List.length_cons, mathInt]
    rw [ih, ih (0 * R + _)]
    ring

theorem mathInt_cons (R : Nat) (c : Char) (cs : List Char) :
    mathInt R (c :: cs) = digitOf c * R ^ cs.length + mathInt R cs := by
  have h := mathInt_foldl R cs (0 * R + (digitValue c).getD 0)
  simp only [mathInt, List.foldl_cons] at h ⊢
  rw [h]
  simp [digitOf]

theorem mathInt_eq_ofDigits (R : Nat) (z : List Char) :
    mathInt R z = Nat.ofDigits R ((z.map digitOf).reverse) := by
  induction z with
  | nil => simp [mathInt]
  | cons c cs ih =>
    rw [mathInt_cons, ih, List.map_cons, List.reverse_cons, Nat.ofDigits_append]
    simp [Nat.ofDigits_singleton]
    ring

theorem digitOf_lt_ten {c : Char} (h : isRadixDigit 10 c = true) : digitOf c < 10 := by
  have hc := (isRadixDigit_ten c).1 h
  simp only [digitOf, digitValue_of_digit h, Option.getD_some]
  omega

theorem digitOf_inj {c d : Char} (hc : isRadixDigit 10 c = true) (hd : isRadixDigit 10 d = true)
    (h : digitOf c = digitOf d) : c = d := by
  have h1 := (isRadixDigit_ten c).1 hc
  have h2 := (isRadixDigit_ten d).1 hd
  simp only [digitOf, digitValue_of_digit hc, digitValue_of_digit hd, Option.getD_some] at h
  apply Char.ext
  apply UInt32.ext
  have : c.toNat = d.toNat := by omega
  exact this

theorem map_digitOf_inj : ∀ {a b : List Char}, (∀ c ∈ a, isRadixDigit 10 c = true) →
    (∀ c ∈ b, isRadixDigit 10 c = true) → a.map digitOf = b.map digitOf → a = b
  | [], [], _, _, _ => rfl
  | [], _ :: _, _, _, h => by simp at h
  | _ :: _, [], _, _, h => by simp at h
  | c :: cs, d :: ds, ha, hb, h => by
    simp only [List.map_cons, List.cons.injEq] at h
    have h1 : c = d :=
      digitOf_inj (ha c (List.mem_cons_self _ _)) (hb d (List.mem_cons_self _ _)) h.1
    have h2 : cs = ds :=
      map_digitOf_inj (fun x hx => ha x (List.mem_cons_of_mem _ hx))
        (fun x hx => hb x (List.mem_cons_of_mem _ hx)) h.2
    rw [h1, h2]

theorem isPlainNumeral_iff (z : List Char) :
    isPlainNumeral z = true ↔
      ∃ c cs, z = c :: cs ∧ (∀ x ∈ c :: cs, isRadixDigit 10 x = true) ∧
        (c ≠ '0' ∨ cs = []) ∧ (c :: cs).length ≤ 15 := by
  cases z with
  | nil => simp [isPlainNumeral]
  | cons c cs =>
    simp only [isPlainNumeral, Bool.and_eq_true, List.all_eq_true, Bool.or_eq_true,
      bne_iff_ne, ne_eq, List.isEmpty_iff, decide_eq_true_eq, List.cons.injEq]
    constructor
    · rintro ⟨⟨h1, h2⟩, h3⟩
      exact ⟨c, cs, ⟨rfl, rfl⟩, h1, h2, h3⟩
    · rintro ⟨c1, cs1, ⟨rfl, rfl⟩, h1, h2, h3⟩
      exact ⟨⟨h1, h2⟩, h3⟩

theorem mathInt_lt_pow {z : List Char} (h : ∀ x ∈ z, isRadixDigit 10 x = true) :
    mathInt 10 z < 10 ^ z.length := by
  rw [mathInt_eq_ofDigits]
  have := Nat.ofDigits_lt_base_pow_length (b := 10) (l := (z.map digitOf).reverse) (by norm_num)
    (by
      intro x hx
      simp only [List.mem_reverse, List.mem_map] at hx
      obtain ⟨c, hc, rfl⟩ := hx
      exact digitOf_lt_ten (h c hc))
  simpa using this

theorem toDouble_of_small {n : Nat} (h : n < 2 ^ 53) : toDouble n = some n := by
  unfold toDouble
  rw [if_pos h]

theorem parseDigits_digits {z : List Char} (negative : Bool) (hne : z ≠ [])
    (h : ∀ x ∈ z, isRadixDigit 10 x = true) (hlen : z.length ≤ 15) :
    parseDigits negative 10 z
      = .finite (if negative then -(mathInt 10 z : Int) else (mathInt 10 z : Int)) := by
  have htake : z.takeWhile (isRadixDigit 10) = z := by
    rw [List.takeWhile_eq_self_iff]
    exact h
  have hlt : mathInt 10 z < 2 ^ 53 := by
    have h1 := mathInt_lt_pow h
    have h2 : (10 : Nat) ^ z.length ≤ 10 ^ 15 := Nat.pow_le_pow_right (by norm_num) hlen
    have h3 : (10 : Nat) ^ 15 < 2 ^ 53 := by norm_num
    omega
  unfold parseDigits
  simp only [htake, toDouble_of_small hlt]
  cases z with
  | nil => exact absurd rfl hne
  | cons c cs => simp

theorem parseUnsigned_plain (negative : Bool) (c : Char) (cs : List Char)
    (h : c ≠ '0' ∨ cs = []) :
    parseUnsigned negative (c :: cs) = parseDigits negative 10 (c :: cs) := by
  unfold parseUnsigned
  split
  · rename_i rest heq
    simp only [List.cons.injEq] at heq
    rcases h with h | h
    · exact absurd heq.1 h
    · rw [h] at heq
      simp at heq
  · rename_i rest heq
    simp only [List.cons.injEq] at heq
    rcases h with h | h
    · exact absurd heq.1 h
    · rw [h] at heq
      simp at heq
  · rfl

theorem parseInt_plainNumeral {z : List Char} (h : isPlainNumeral z = true) :
    parseInt z = .finite (mathInt 10 z) := by
  obtain ⟨c, cs, rfl, hd, h0, hlen⟩ := (isPlainNumeral_iff z).1 h
  have hc : isRadixDigit 10 c = true := hd c (List.mem_cons_self _ _)
  have hrange := (isRadixDigit_ten c).1 hc
  have hdrop : (c :: cs).dropWhile isStrWhiteSpaceChar = c :: cs := by
    simp [List.dropWhile, not_whiteSpace_of_digit hc]
  unfold parseInt
  rw [hdrop]
  split
  · rename_i rest heq
    simp only [List.cons.injEq] at heq
    have : c.toNat = 45 := by rw [heq.1]; rfl
    omega
  · rename_i rest heq
    simp only [List.cons.injEq] at heq
    have : c.toNat = 43 := by rw [heq.1]; rfl
    omega
  · rw [parseUnsigned_plain false c cs h0, parseDigits_digits false (by simp) hd hlen]
    simp

theorem mathInt_inj_of_plain {a b : List Char} (ha : isPlainNumeral a = true)
    (hb : isPlainNumeral b = true) (h : mathInt 10 a = mathInt 10 b) : a = b := by
  obtain ⟨c, cs, rfl, hda, h0a, -⟩ := (isPlainNumeral_iff a).1 ha
  obtain ⟨d, ds, rfl, hdb, h0b, -⟩ := (isPlainNumeral_iff b).1 hb
  have key : ∀ (c : Char) (cs : List Char), (∀ x ∈ c :: cs, isRadixDigit 10 x = true) →
      c ≠ '0' → Nat.digits 10 (mathInt 10 (c :: cs)) = ((c :: cs).map digitOf).reverse := by
    intro c cs hd hc
    rw [mathInt_eq_ofDigits]
    apply Nat.digits_ofDigits 10 (by norm_num)
    · intro x hx
      simp only [List.mem_reverse, List.mem_map] at hx
      obtain ⟨y, hy, rfl⟩ := hx
      exact digitOf_lt_ten (hd y hy)
    · intro _
      simp only [List.map_cons, List.reverse_cons, List.getLast_append_singleton, ne_eq]
      intro hz
      apply hc
      have hcd : isRadixDigit 10 c = true := hd c (List.mem_cons_self _ _)
      have hr := (isRadixDigit_ten c).1 hcd
      simp only [digitOf, digitValue_of_digit hcd, Option.getD_some] at hz
      apply Char.ext
      apply UInt32.ext
      show c.toNat = 48
      omega
  have zero : ∀ (c : Char) (cs : List Char), (∀ x ∈ c :: cs, isRadixDigit 10 x = true) →
      c ≠ '0' → mathInt 10 (c :: cs) ≠ 0 := by
    intro c cs hd hc hz
    have := key c cs hd hc
    rw [hz] at this
    simp at this
  have single0 : ∀ (c : Char) (cs : List Char), c = '0' → cs = [] → mathInt 10 (c :: cs) = 0 := by
    intro c cs h1 h2
    subst h1 h2
    rfl
  by_cases hc : c = '0' <;> by_cases hd : d = '0'
  · have hcs : cs = [] := by
      rcases h0a with h0a | h0a
      · exact absurd hc h0a
      · exact h0a
    have hds : ds = [] := by
      rcases h0b with h0b | h0b
      · exact absurd hd h0b
      · exact h0b
    rw [hc, hd, hcs, hds]
  · have hcs : cs = [] := by
      rcases h0a with h0a | h0a
      · exact absurd hc h0a
      · exact h0a
    rw [single0 c cs hc hcs] at h
    exact absurd h.symm (zero d ds hdb hd)
  · have hds : ds = [] := by
      rcases h0b with h0b | h0b
      · exact absurd hd h0b
      · exact h0b
    rw [single0 d ds hd hds] at h
    exact absurd h (zero c cs hda hc)
  · have h1 := key c cs hda hc
    have h2 := key d ds hdb hd
    rw [h] at h1
    rw [h1] at h2
    exact map_digitOf_inj hda hdb (List.reverse_injective h2)

/-! ## The pure methods: `needsVersionSwitch` and `parseVersionRange` -/

theorem needsVersionSwitch_some (original required : List Char) (a b : Bool) :
    needsVersionSwitch ⟨some original, some required, a, b⟩
      = (decide (original ≠ []) && decide (required ≠ []) &&
          (parseInt (major original)).strictNe (parseInt (major required))) := by
  cases original <;> cases required <;> simp [needsVersionSwitch, truthy]

theorem strictNe_finite (a b : Int) :
    (JSNumber.finite a).strictNe (JSNumber.finite b) = true ↔ a ≠ b := by
  simp [JSNumber.strictNe]

/-- C3 (counterexample): the recorded versions `18.20.0` and `018.0.0` are both present and
their major components `18` and `018` differ as text, yet `needsVersionSwitch` is false; and
for `lts.1` against `lts.2` the major components are the same text, yet it is true. -/
theorem needsVersionSwitch_not_textual :
    (needsVersionSwitch ⟨some (lit "18.20.0"), some (lit "018.0.0"), false, false⟩ = false ∧
      major (lit "18.20.0") ≠ major (lit "018.0.0")) ∧
    (needsVersionSwitch ⟨some (lit "lts.1"), some (lit "lts.2"), false, false⟩ = true ∧
      major (lit "lts.1") = major (lit "lts.2")) := by
  decide

/-- C3 (amended): `needsVersionSwitch` is true exactly when both versions are present and
non-empty and the Numbers that `parseInt` reads from their major components are not equal
(`NaN` being unequal to everything); when both major components are decimal numerals without
a leading zero, of at most 15 digits, that is exactly when the major components differ as
text.  `18.20.0` against `20.18.0` gives true, `18.20.0` against `18.9.0` gives false, and an
absent required version gives false. -/
theorem needsVersionSwitch_iff_parsed_majors_differ (m : Manager) :
    (needsVersionSwitch m = true ↔
      ∃ original required, m.originalVersion = some original ∧
        m.requiredVersion = some required ∧ original ≠ [] ∧ required ≠ [] ∧
        (parseInt (major original)).strictNe (parseInt (major required)) = true) ∧
    (∀ original required, m.originalVersion = some original →
        m.requiredVersion = some required →
        isPlainNumeral (major original) = true → isPlainNumeral (major required) = true →
        (needsVersionSwitch m = true ↔ major original ≠ major required)) ∧
    needsVersionSwitch { m with originalVersion := some (lit "18.20.0"),
                                requiredVersion := some (lit "20.18.0") } = true ∧
    needsVersionSwitch { m with originalVersion := some (lit "18.20.0"),
                                requiredVersion := some (lit "18.9.0") } = false ∧
    needsVersionSwitch { m with requiredVersion := none } = false := by
  obtain ⟨o, r, a, b⟩ := m
  refine ⟨?_, ?_, ?_, ?_, ?_⟩
  · cases o with
    | none => simp [needsVersionSwitch, truthy]
    | some original =>
      cases r with
      | none => simp [needsVersionSwitch, truthy]
      | some required =>
        rw [needsVersionSwitch_some]
        simp only [Bool.and_eq_true, decide_eq_true_eq, Option.some.injEq]
        constructor
        · rintro ⟨⟨h1, h2⟩, h3⟩
          exact ⟨original, required, rfl, rfl, h1, h2, h3⟩
        · rintro ⟨o1, r1, rfl, rfl, h1, h2, h3⟩
          exact ⟨⟨h1, h2⟩, h3⟩
  · intro original required ho hr hpo hpr
    simp only at ho hr
    subst ho hr
    have hone : original ≠ [] := by
      rintro rfl
      simp [major, splitHead, isPlainNumeral] at hpo
    have hrne : required ≠ [] := by
      rintro rfl
      simp [major, splitHead, isPlainNumeral] at hpr
    rw [needsVersionSwitch_some, parseInt_plainNumeral hpo, parseInt_plainNumeral hpr]
    simp only [hone, hrne, ne_eq, not_false_eq_true, decide_True, Bool.true_and,
      strictNe_finite]
    constructor
    · intro h heq
      apply h
      rw [heq]
    · intro h heq
      apply h
      exact mathInt_inj_of_plain hpo hpr (by exact_mod_cast heq)
  · show needsVersionSwitch ⟨some (lit "18.20.0"), some (lit "20.18.0"), a, b⟩ = true
    rw [needsVersionSwitch_some]
    decide
  · show needsVersionSwitch ⟨some (lit "18.20.0"), some (lit "18.9.0"), a, b⟩ = false
    rw [needsVersionSwitch_some]
    decide
  · cases o with
    | none => simp [needsVersionSwitch, truthy]
    | some original => simp [needsVersionSwitch, truthy]

/-- C3 (instance of the amended claim): for the manager holding `18.20.0` and `20.18.0`, whose
major components are plain numerals, the switch is needed exactly because `18` and `20`
differ. -/
theorem needsVersionSwitch_iff_parsed_majors_differ_witness :
    (needsVersionSwitch ⟨some (lit "18.20.0"), some (lit "20.18.0"), true, false⟩ = true ↔
      major (lit "18.20.0") ≠ major (lit "20.18.0")) :=
  (needsVersionSwitch_iff_parsed_majors_differ
    ⟨some (lit "18.20.0"), some (lit "20.18.0"), true, false⟩).2.1
    (lit "18.20.0") (lit "20.18.0") rfl rfl (by decide) (by decide)

/-- C4: on every range text `parseVersionRange` is the ordered first-match lookup of the table
of known shapes: `22.11.0` when the text contains `>=18.0.0` and `<24.0.0`, otherwise
`20.18.0` when it contains `>=18.0.0` and `<23.0.0`, otherwise `18.20.0` when it contains
`>=18.0.0`, otherwise absent; with the four examples of the specification, and absent for
every text that does not contain `>=18.0.0`. -/
theorem parseVersionRange_eq_table (range : List Char) :
    parseVersionRange (.string range) = .ok (rangeMapperMap range) ∧
    parseVersionRange (.string range) = .ok
      (if lit ">=18.0.0" <:+: range ∧ lit "<24.0.0" <:+: range then some (lit "22.11.0")
       else if lit ">=18.0.0" <:+: range ∧ lit "<23.0.0" <:+: range then some (lit "20.18.0")
       else if lit ">=18.0.0" <:+: range then some (lit "18.20.0")
       else none) ∧
    parseVersionRange (.string (lit ">=18.0.0 <24.0.0")) = .ok (some (lit "22.11.0")) ∧
    parseVersionRange (.string (lit ">=18.0.0 <23.0.0")) = .ok (some (lit "20.18.0")) ∧
    parseVersionRange (.string (lit ">=18.0.0")) = .ok (some (lit "18.20.0")) ∧
    parseVersionRange (.string (lit ">=16.0.0")) = .ok none ∧
    (¬ lit ">=18.0.0" <:+: range → parseVersionRange (.string range) = .ok none) := by
  have hmain : parseVersionRange (.string range) = .ok
      (if lit ">=18.0.0" <:+: range ∧ lit "<24.0.0" <:+: range then some (lit "22.11.0")
       else if lit ">=18.0.0" <:+: range ∧ lit "<23.0.0" <:+: range then some (lit "20.18.0")
       else if lit ">=18.0.0" <:+: range then some (lit "18.20.0")
       else none) := by
    rcases h18 : includes range (lit ">=18.0.0") with _ | _ <;>
      rcases h24 : includes range (lit "<24.0.0") with _ | _ <;>
      rcases h23 : includes range (lit "<23.0.0") with _ | _ <;>
      simp [parseVersionRange, Json.includes, ← includes_iff_infix, h18, h24, h23]
  refine ⟨?_, hmain, rfl, rfl, rfl, rfl, ?_⟩
  · rcases h18 : includes range (lit ">=18.0.0") with _ | _ <;>
      rcases h24 : includes range (lit "<24.0.0") with _ | _ <;>
      rcases h23 : includes range (lit "<23.0.0") with _ | _ <;>
      simp [parseVersionRange, Json.includes, rangeMapperMap, knownShapes, List.find?,
        h18, h24, h23]
  · intro h
    rw [hmain]
    simp [h]

/-! ## Reasoning principles for `Async` -/

section AsyncLemmas

variable {σ ε α β : Type}

theorem Async.bind_apply (x : Async σ ε α) (f : α → Async σ ε β) (s : State σ) :
    (x >>= f) s = Async.bind x f s := rfl

theorem Async.pure_apply (a : α) (s : State σ) : (pure a : Async σ ε α) s = (.ok a, s) := rfl

theorem Async.bind_ok {x : Async σ ε α} {f : α → Async σ ε β} {s s1 : State σ} {a : α}
    (hx : x s = (.ok a, s1)) : (x >>= f) s = f a s1 := by
  simp [Async.bind_apply, Async.bind, hx]

theorem Async.bind_error {x : Async σ ε α} {f : α → Async σ ε β} {s s1 : State σ}
    {e : Fault ε} (hx : x s = (.error e, s1)) : (x >>= f) s = (.error e, s1) := by
  simp [Async.bind_apply, Async.bind, hx]

theorem Async.tryCatch_ok {x : Async σ ε α} {k : Fault ε → Async σ ε α} {s s1 : State σ}
    {a : α} (hx : x s = (.ok a, s1)) : Async.tryCatch x k s = (.ok a, s1) := by
  simp [Async.tryCatch, hx]

theorem Async.tryCatch_error {x : Async σ ε α} {k : Fault ε → Async σ ε α} {s s1 : State σ}
    {e : Fault ε} (hx : x s = (.error e, s1)) : Async.tryCatch x k s = k e s1 := by
  simp [Async.tryCatch, hx]

theorem Async.result_cases (x : Async σ ε α) (s : State σ) :
    (∃ a s1, x s = (.ok a, s1)) ∨ (∃ e s1, x s = (.error e, s1)) := by
  rcases hx : x s with ⟨r, s1⟩
  cases r with
  | ok a => exact Or.inl ⟨a, s1, rfl⟩
  | error e => exact Or.inr ⟨e, s1, rfl⟩

theorem Async.noThrow_pure (a : α) : Async.NoThrow (pure a : Async σ ε α) :=
  fun s => ⟨a, s, rfl⟩

theorem Async.noThrow_bind {x : Async σ ε α} {f : α → Async σ ε β} (hx : Async.NoThrow x)
    (hf : ∀ a, Async.NoThrow (f a)) : Async.NoThrow (x >>= f) := by
  intro s
  obtain ⟨a, s1, h1⟩ := hx s
  obtain ⟨b, s2, h2⟩ := hf a s1
  exact ⟨b, s2, by rw [Async.bind_ok h1, h2]⟩

theorem Async.noThrow_tryCatch (x : Async σ ε α) {k : Fault ε → Async σ ε α}
    (hk : ∀ e, Async.NoThrow (k e)) : Async.NoThrow (Async.tryCatch x k) := by
  intro s
  rcases Async.result_cases x s with ⟨a, s1, h1⟩ | ⟨e, s1, h1⟩
  · exact ⟨a, s1, Async.tryCatch_ok h1⟩
  · obtain ⟨b, s2, h2⟩ := hk e s1
    exact ⟨b, s2, by rw [Async.tryCatch_error h1, h2]⟩

theorem Async.keepsManager_pure (a : α) : Async.KeepsManager (pure a : Async σ ε α) :=
  fun _ => rfl

theorem Async.keepsManager_throw (e : Fault ε) :
    Async.KeepsManager (Async.throw e : Async σ ε α) :=
  fun _ => rfl

theorem Async.keepsManager_bind {x : Async σ ε α} {f : α → Async σ ε β}
    (hx : Async.KeepsManager x) (hf : ∀ a, Async.KeepsManager (f a)) :
    Async.KeepsManager (x >>= f) := by
  intro s
  rcases Async.result_cases x s with ⟨a, s1, h1⟩ | ⟨e, s1, h1⟩
  · have := hx s
    rw [h1] at this
    rw [Async.bind_ok h1, hf a s1, this]
  · have := hx s
    rw [h1] at this
    rw [Async.bind_error h1, this]

theorem Async.keepsManager_tryCatch {x : Async σ ε α} {k : Fault ε → Async σ ε α}
    (hx : Async.KeepsManager x) (hk : ∀ e, Async.KeepsManager (k e)) :
    Async.KeepsManager (Async.tryCatch x k) := by
  intro s
  rcases Async.result_cases x s with ⟨a, s1, h1⟩ | ⟨e, s1, h1⟩
  · have := hx s
    rw [h1] at this
    rw [Async.tryCatch_ok h1, this]
  · have := hx s
    rw [h1] at this
    rw [Async.tryCatch_error h1, hk e s1, this]

theorem executeCommand_apply (h : Host σ ε) (command : List Char)
    (args : List (Option (List Char))) (s : State σ) :
    PlatformUtils.executeCommand h command args s =
      ((h.executeCommand command args s.host).1.mapError Fault.thrown,
        { s with host := (h.executeCommand command args s.host).2,
                 calls := s.calls ++ [Call.executeCommand command args] }) := by
  unfold PlatformUtils.executeCommand
  rcases h.executeCommand command args s.host with ⟨r, t⟩
  cases r <;> rfl

theorem executeCommand_keeps (h : Host σ ε) (command : List Char)
    (args : List (Option (List Char))) :
    Async.KeepsManager (PlatformUtils.executeCommand h command args) := by
  intro s
  rw [executeCommand_apply]

theorem getManager_keeps : Async.KeepsManager (getManager : Async σ ε Manager) :=
  fun _ => rfl

theorem orTypeError_keeps (o : Option α) : Async.KeepsManager (orTypeError o : Async σ ε α) := by
  intro s
  cases o <;> rfl

theorem nvmScriptPath_keeps (h : Host σ ε) : Async.KeepsManager (nvmScriptPath h) := by
  intro s
  unfold nvmScriptPath
  split_ifs
  · rfl
  · split <;> rfl

/-- What `getCurrentNodeVersion` does, in one equation: one call of `node --version`; the
output without its first `v` on success, the detection fault on failure. -/
theorem getCurrentNodeVersion_apply (h : Host σ ε) (s : State σ) :
    getCurrentNodeVersion h s =
      ((match (h.executeCommand (lit "node") [some (lit "--version")] s.host).1 with
        | .ok out => .ok (replaceFirst 'v' out)
        | .error _ => .error detectionFault),
        { s with host := (h.executeCommand (lit "node") [some (lit "--version")] s.host).2,
                 calls := s.calls ++ [versionCall] }) := by
  unfold getCurrentNodeVersion Async.tryCatch
  rw [Async.bind_apply]
  unfold Async.bind
  rw [executeCommand_apply]
  rcases h.executeCommand (lit "node") [some (lit "--version")] s.host with ⟨r, t⟩
  cases r <;> rfl

theorem getCurrentNodeVersion_keeps (h : Host σ ε) :
    Async.KeepsManager (getCurrentNodeVersion h) := by
  intro s
  rw [getCurrentNodeVersion_apply]

end AsyncLemmas

/-! ## Version detection and restoration -/

section Restoration

variable {σ ε : Type}

theorem switchBackToOriginal_apply (h : Host σ ε) (s : State σ) :
    switchBackToOriginal h s =
      if truthy s.manager.originalVersion then
        (getCurrentNodeVersion h >>= fun currentVersion =>
          if some currentVersion = s.manager.originalVersion then pure true
          else Async.tryCatch (activateOriginal h s.manager) (fun _ => pure false)) s
      else (.ok true, s) := by
  unfold switchBackToOriginal
  rw [Async.bind_apply]
  unfold Async.bind getManager
  simp only []
  cases truthy s.manager.originalVersion <;> rfl

/-- C8 (counterexample): on a machine whose `node --version` prints nothing,
`getCurrentNodeVersion` does not fail: it returns the empty text, which is not a Version; and
for the output `node-18` it returns `node-18`, which does not begin with a digit. -/
theorem getCurrentNodeVersion_returns_empty_text :
    (getCurrentNodeVersion (simHost plainSetup)
      (startState { nodeOutput := [], installed := [], files := [], hasN := false })).1
        = .ok [] ∧
    (getCurrentNodeVersion (simHost plainSetup)
      (startState { nodeOutput := lit "node-18", installed := [], files := [],
                    hasN := false })).1
        = .ok (lit "node-18") := by
  constructor <;> rfl

/-- C8 (amended): `getCurrentNodeVersion` fails exactly when the print-version command fails;
when the command succeeds it returns the output with the first occurrence of the letter `v`
removed, without any validation: for an output `v` followed by a version text the result is
that version text, and an empty output gives the empty text. -/
theorem getCurrentNodeVersion_removes_first_v (h : Host σ ε) (s : State σ) :
    (∀ out t, h.executeCommand (lit "node") [some (lit "--version")] s.host = (.ok out, t) →
      (getCurrentNodeVersion h s).1 = .ok (replaceFirst 'v' out)) ∧
    (∀ version t,
      h.executeCommand (lit "node") [some (lit "--version")] s.host = (.ok ('v' :: version), t) →
      (getCurrentNodeVersion h s).1 = .ok version) ∧
    (∀ t, h.executeCommand (lit "node") [some (lit "--version")] s.host = (.ok [], t) →
      (getCurrentNodeVersion h s).1 = .ok []) ∧
    (∀ e t, h.executeCommand (lit "node") [some (lit "--version")] s.host = (.error e, t) →
      (getCurrentNodeVersion h s).1 = .error detectionFault) := by
  refine ⟨?_, ?_, ?_, ?_⟩
  · intro out t hx
    rw [getCurrentNodeVersion_apply, hx]
  · intro version t hx
    rw [getCurrentNodeVersion_apply, hx]
    simp [replaceFirst]
  · intro t hx
    rw [getCurrentNodeVersion_apply, hx]
    rfl
  · intro e t hx
    rw [getCurrentNodeVersion_apply, hx]

/-- C2 (counterexample): with the original version `18.20.0` recorded and a failing
`node --version`, `switchBackToOriginal` raises the detection fault instead of returning a
boolean. -/
theorem switchBackToOriginal_raises :
    (switchBackToOriginal (simHost { nodeBroken := true, shadowed := false })
      { manager := ⟨some (lit "18.20.0"), none, false, true⟩,
        host := { nodeOutput := lit "v20.18.0", installed := [], files := [], hasN := true },
        calls := [] }).1
      = .error (.error (lit "無法取得 Node.js 版本")) := by
  rfl

/-- C2 (amended): `switchBackToOriginal` raises only when an original version is recorded and
the print-version command run at its entry fails, and then it raises the detection fault; in
every other case, a failure of the backend activation command and of the last print-version
command included, it returns a boolean. -/
theorem switchBackToOriginal_boolean_unless_detection_fails (h : Host σ ε) (s : State σ) :
    ((truthy s.manager.originalVersion = true ∧
        ∃ e t, h.executeCommand (lit "node") [some (lit "--version")] s.host = (.error e, t)) →
      (switchBackToOriginal h s).1 = .error detectionFault) ∧
    (¬ (truthy s.manager.originalVersion = true ∧
        ∃ e t, h.executeCommand (lit "node") [some (lit "--version")] s.host = (.error e, t)) →
      ∃ b : Bool, (switchBackToOriginal h s).1 = .ok b) := by
  constructor
  · rintro ⟨htruthy, e, t, hx⟩
    rw [switchBackToOriginal_apply, if_pos htruthy]
    have hcur : getCurrentNodeVersion h s = (.error detectionFault,
        { s with host := t, calls := s.calls ++ [versionCall] }) := by
      rw [getCurrentNodeVersion_apply, hx]
    rw [Async.bind_error hcur]
  · intro hnot
    rw [switchBackToOriginal_apply]
    by_cases htruthy : truthy s.manager.originalVersion = true
    · rw [if_pos htruthy]
      rcases hx : h.executeCommand (lit "node") [some (lit "--version")] s.host with ⟨r, t⟩
      cases r with
      | error e => exact absurd ⟨htruthy, e, t, hx⟩ hnot
      | ok out =>
        have hcur : getCurrentNodeVersion h s = (.ok (replaceFirst 'v' out),
            { s with host := t, calls := s.calls ++ [versionCall] }) := by
          rw [getCurrentNodeVersion_apply, hx]
        rw [Async.bind_ok hcur]
        split_ifs
        · exact ⟨true, rfl⟩
        · obtain ⟨b, s1, hb⟩ :=
            Async.noThrow_tryCatch (activateOriginal h s.manager)
              (k := fun _ => pure false) (fun _ => Async.noThrow_pure false)
              { s with host := t, calls := s.calls ++ [versionCall] }
          exact ⟨b, by rw [hb]⟩
    · rw [if_neg htruthy]
      exact ⟨true, rfl⟩

/-- C10: with an original version recorded, no backend available and a current version that
differs from the original, `switchBackToOriginal` reports success although no activation
command is run: it returns true and its only calls are the two reads of the version (and
none at all when the recorded original is the empty text), provided both reads succeed. -/
theorem switchBackToOriginal_without_backend (h : Host σ ε) (s : State σ)
    (original out1 out2 : List Char) (t1 t2 : σ)
    (horiginal : s.manager.originalVersion = some original)
    (hnvm : s.manager.nvmAvailable = false) (hn : s.manager.nAvailable = false)
    (hread1 : h.executeCommand (lit "node") [some (lit "--version")] s.host = (.ok out1, t1))
    (hdiffers : replaceFirst 'v' out1 ≠ original)
    (hread2 : h.executeCommand (lit "node") [some (lit "--version")] t1 = (.ok out2, t2)) :
    switchBackToOriginal h s =
      if original = [] then (.ok true, s)
      else (.ok true, { s with host := t2, calls := s.calls ++ [versionCall, versionCall] }) := by
  rw [switchBackToOriginal_apply, horiginal]
  cases original with
  | nil => simp [truthy]
  | cons c cs =>
    have hcur : getCurrentNodeVersion h s = (.ok (replaceFirst 'v' out1),
        { s with host := t1, calls := s.calls ++ [versionCall] }) := by
      rw [getCurrentNodeVersion_apply, hread1]
    have hne : ¬ (some (replaceFirst 'v' out1) = some (c :: cs)) := by
      intro heq
      exact hdiffers (Option.some.inj heq)
    rw [if_pos (by rfl), Async.bind_ok hcur, if_neg hne, if_neg (by simp)]
    have hbody : activateOriginal h s.manager
        { s with host := t1, calls := s.calls ++ [versionCall] }
        = (.ok true, { s with host := t2, calls := s.calls ++ [versionCall, versionCall] }) := by
      unfold activateOriginal
      rw [hnvm, hn]
      simp only [Bool.false_eq_true, if_false]
      have hlast : getCurrentNodeVersion h
          { s with host := t1, calls := s.calls ++ [versionCall] }
          = (.ok (replaceFirst 'v' out2),
              { s with host := t2, calls := s.calls ++ [versionCall, versionCall] }) := by
        rw [getCurrentNodeVersion_apply]
        simp only [hread2, List.append_assoc, List.singleton_append]
      have hskip : (pure PUnit.unit : Async σ ε PUnit)
          { s with host := t1, calls := s.calls ++ [versionCall] }
          = (.ok PUnit.unit, { s with host := t1, calls := s.calls ++ [versionCall] }) := rfl
      rw [Async.bind_ok hskip, Async.bind_ok hlast]
      rfl
    rw [Async.tryCatch_ok hbody]

end Restoration

/-! ## Resolution of the required version -/

section Resolution

variable {σ ε : Type}

theorem parseVersionRange_string (range : List Char) :
    parseVersionRange (.string range) = .ok (rangeMapperMap range) := by
  rcases h18 : includes range (lit ">=18.0.0") with _ | _ <;>
    rcases h24 : includes range (lit "<24.0.0") with _ | _ <;>
    rcases h23 : includes range (lit "<23.0.0") with _ | _ <;>
    simp [parseVersionRange, Json.includes, rangeMapperMap, knownShapes, List.find?,
      h18, h24, h23]

theorem parseVersionRange_of_falsy (c : Json) (hc : Json.truthy (some c) = false) :
    (match parseVersionRange c with
      | .ok version => version
      | .error _ => none) = none := by
  cases c with
  | null => rfl
  | bool b => rfl
  | number z => rfl
  | string r =>
    have hr : r = [] := by simpa [Json.truthy] using hc
    subst hr
    rfl
  | array items => simp [Json.truthy] at hc
  | object members => simp [Json.truthy] at hc

/-- The synchronous part of `getRequiredVersion` against the engine constraint of the
manifest: a fault and a falsy constraint both come out as absent. -/
theorem engineConstraintVersion_spec (packageJson : Json) :
    (match engineConstraintVersion packageJson with
      | .ok version => version
      | .error _ => none)
      = (match engineConstraint packageJson with
          | none => none
          | some constraint =>
            match parseVersionRange constraint with
            | .ok version => version
            | .error _ => none) := by
  cases packageJson with
  | null => rfl
  | bool b => rfl
  | number z => rfl
  | string r => rfl
  | array items => rfl
  | object members =>
    simp only [engineConstraintVersion, engineConstraint, Json.getProp]
    rcases hl : members.lookup (lit "engines") with _ | engines
    · rfl
    · cases engines with
      | null => rfl
      | bool b => cases b <;> rfl
      | number z => cases z <;> rfl
      | string r => cases r <;> rfl
      | array items => rfl
      | object es =>
        simp only [show Json.truthy (some (Json.object es)) = true from rfl, if_true,
          Json.getProp]
        rcases hn : es.lookup (lit "node") with _ | c
        · rfl
        · simp only []
          by_cases hc : Json.truthy (some c) = true
          · rw [if_pos hc]
          · rw [if_neg hc]
            have := parseVersionRange_of_falsy c (by simpa using hc)
            rw [this]

theorem liftSync_apply {α : Type} (r : Except TypeError α) (s : State σ) :
    (liftSync r : Async σ ε α) s =
      ((match r with
        | .ok a => .ok a
        | .error _ => .error .typeError), s) := by
  cases r <;> rfl

theorem getRequiredVersion_result (h : Host σ ε) (s : State σ) :
    (getRequiredVersion h s).1 = .ok (requiredVersionSpec h s.host) := by
  unfold getRequiredVersion requiredVersionSpec manifestVersion
  simp only [Async.tryCatch, Async.bind_apply, Async.bind, hostRead, FileUtils.fileExists,
    FileUtils.readFile, jsonParse, Async.pure_apply, liftSync_apply, ite_apply]
  rcases hcwd : h.cwd s.host with e | cwd
  · rfl
  · simp only []
    rcases hpin : h.fileExists (h.pathJoin [cwd, lit ".nvmrc"]) s.host with ⟨r, t1⟩
    cases r with
    | error e => rfl
    | ok b =>
      cases b with
      | true =>
        simp only [if_true, Async.tryCatch, Async.bind_apply, Async.bind, hostRead, FileUtils.fileExists,
    FileUtils.readFile, jsonParse, Async.pure_apply, liftSync_apply, ite_apply]
        rcases hread : h.readFile (h.pathJoin [cwd, lit ".nvmrc"]) t1 with ⟨r2, t2⟩
        cases r2 <;> rfl
      | false =>
        simp only [Bool.false_eq_true, if_false, Async.tryCatch, Async.bind_apply, Async.bind, hostRead, FileUtils.fileExists,
    FileUtils.readFile, jsonParse, Async.pure_apply, liftSync_apply, ite_apply]
        rcases hcwd1 : h.cwd t1 with e | cwd1
        · rfl
        · simp only []
          rcases hman : h.fileExists (h.pathJoin [cwd1, lit "package.json"]) t1 with ⟨r2, t2⟩
          cases r2 with
          | error e => rfl
          | ok b2 =>
            cases b2 with
            | false => rfl
            | true =>
              simp only [if_true, Async.tryCatch, Async.bind_apply, Async.bind, hostRead, FileUtils.fileExists,
    FileUtils.readFile, jsonParse, Async.pure_apply, liftSync_apply, ite_apply]
              rcases hread : h.readFile (h.pathJoin [cwd1, lit "package.json"]) t2
                with ⟨r3, t3⟩
              cases r3 with
              | error e => rfl
              | ok text =>
                simp only []
                rcases hjson : h.jsonParse text with e | packageJson
                · rfl
                · simp only []
                  rw [← engineConstraintVersion_spec]
                  cases engineConstraintVersion packageJson <;> rfl

/-- C9: `getRequiredVersion` never fails and follows the fixed order of section 4.2 (it
returns `requiredVersionSpec`): the trimmed contents of the version-pin file when that file
exists and is read, whatever the manifest holds; `parseVersionRange` of the engine constraint
when the pin file does not exist and the manifest exists with a constraint; absent when
neither file exists; and absent on a fault of the working-directory query, of an existence
check, of a read or of the parse. -/
theorem getRequiredVersion_follows_order (h : Host σ ε) (s : State σ) :
    (getRequiredVersion h s).1 = .ok (requiredVersionSpec h s.host) ∧
    (∀ cwd t1 contents t2, h.cwd s.host = .ok cwd →
      h.fileExists (h.pathJoin [cwd, lit ".nvmrc"]) s.host = (.ok true, t1) →
      h.readFile (h.pathJoin [cwd, lit ".nvmrc"]) t1 = (.ok contents, t2) →
      (getRequiredVersion h s).1 = .ok (some (trim contents))) ∧
    (∀ cwd t1 cwd1 t2 text t3 members engines range, h.cwd s.host = .ok cwd →
      h.fileExists (h.pathJoin [cwd, lit ".nvmrc"]) s.host = (.ok false, t1) →
      h.cwd t1 = .ok cwd1 →
      h.fileExists (h.pathJoin [cwd1, lit "package.json"]) t1 = (.ok true, t2) →
      h.readFile (h.pathJoin [cwd1, lit "package.json"]) t2 = (.ok text, t3) →
      h.jsonParse text = .ok (.object members) →
      members.lookup (lit "engines") = some (.object engines) →
      engines.lookup (lit "node") = some (.string range) →
      (getRequiredVersion h s).1
        = (parseVersionRange (.string range)).mapError fun _ => Fault.typeError) ∧
    (∀ cwd t1 cwd1 t2, h.cwd s.host = .ok cwd →
      h.fileExists (h.pathJoin [cwd, lit ".nvmrc"]) s.host = (.ok false, t1) →
      h.cwd t1 = .ok cwd1 →
      h.fileExists (h.pathJoin [cwd1, lit "package.json"]) t1 = (.ok false, t2) →
      (getRequiredVersion h s).1 = .ok none) ∧
    (∀ e, h.cwd s.host = .error e → (getRequiredVersion h s).1 = .ok none) ∧
    (∀ cwd e t1, h.cwd s.host = .ok cwd →
      h.fileExists (h.pathJoin [cwd, lit ".nvmrc"]) s.host = (.error e, t1) →
      (getRequiredVersion h s).1 = .ok none) ∧
    (∀ cwd t1 e t2, h.cwd s.host = .ok cwd →
      h.fileExists (h.pathJoin [cwd, lit ".nvmrc"]) s.host = (.ok true, t1) →
      h.readFile (h.pathJoin [cwd, lit ".nvmrc"]) t1 = (.error e, t2) →
      (getRequiredVersion h s).1 = .ok none) ∧
    (∀ cwd t1 cwd1 t2 e t3, h.cwd s.host = .ok cwd →
      h.fileExists (h.pathJoin [cwd, lit ".nvmrc"]) s.host = (.ok false, t1) →
      h.cwd t1 = .ok cwd1 →
      h.fileExists (h.pathJoin [cwd1, lit "package.json"]) t1 = (.ok true, t2) →
      h.readFile (h.pathJoin [cwd1, lit "package.json"]) t2 = (.error e, t3) →
      (getRequiredVersion h s).1 = .ok none) ∧
    (∀ cwd t1 cwd1 t2 text t3 e, h.cwd s.host = .ok cwd →
      h.fileExists (h.pathJoin [cwd, lit ".nvmrc"]) s.host = (.ok false, t1) →
      h.cwd t1 = .ok cwd1 →
      h.fileExists (h.pathJoin [cwd1, lit "package.json"]) t1 = (.ok true, t2) →
      h.readFile (h.pathJoin [cwd1, lit "package.json"]) t2 = (.ok text, t3) →
      h.jsonParse text = .error e →
      (getRequiredVersion h s).1 = .ok none) := by
  refine ⟨getRequiredVersion_result h s, ?_, ?_, ?_, ?_, ?_, ?_, ?_, ?_⟩
  · intro cwd t1 contents t2 h1 h2 h3
    rw [getRequiredVersion_result]
    simp only [requiredVersionSpec, h1, h2, h3]
  · intro cwd t1 cwd1 t2 text t3 members engines range h1 h2 h3 h4 h5 h6 h7 h8
    rw [getRequiredVersion_result]
    simp only [requiredVersionSpec, h1, h2, h3, h4, h5, h6, engineConstraint, h7, h8,
      parseVersionRange_string]
    rfl
  · intro cwd t1 cwd1 t2 h1 h2 h3 h4
    rw [getRequiredVersion_result]
    simp only [requiredVersionSpec, h1, h2, h3, h4]
  · intro e h1
    rw [getRequiredVersion_result]
    simp only [requiredVersionSpec, h1]
  · intro cwd e t1 h1 h2
    rw [getRequiredVersion_result]
    simp only [requiredVersionSpec, h1, h2]
  · intro cwd t1 e t2 h1 h2 h3
    rw [getRequiredVersion_result]
    simp only [requiredVersionSpec, h1, h2, h3]
  · intro cwd t1 cwd1 t2 e t3 h1 h2 h3 h4 h5
    rw [getRequiredVersion_result]
    simp only [requiredVersionSpec, h1, h2, h3, h4, h5]
  · intro cwd t1 cwd1 t2 text t3 e h1 h2 h3 h4 h5 h6
    rw [getRequiredVersion_result]
    simp only [requiredVersionSpec, h1, h2, h3, h4, h5, h6]

end Resolution

/-! ## Switching -/

section Switching

variable {σ ε : Type}

theorem truthy_required_of_needs {m : Manager} (h : needsVersionSwitch m = true) :
    truthy m.requiredVersion = true := by
  unfold needsVersionSwitch at h
  cases hr : truthy m.requiredVersion
  · simp [hr] at h
  · rfl

/-- C7: when no backend is available and a switch is needed, `switchToRequiredVersion`
returns false and leaves the state as it was: the host state is untouched and the trace of
collaborator calls gains no entry, so no external command is invoked. -/
theorem switchToRequiredVersion_without_backend (h : Host σ ε) (s : State σ)
    (hnvm : s.manager.nvmAvailable = false) (hn : s.manager.nAvailable = false)
    (hneeds : needsVersionSwitch s.manager = true) :
    switchToRequiredVersion h s = (.ok false, s) := by
  have hreq := truthy_required_of_needs hneeds
  unfold switchToRequiredVersion
  rw [Async.bind_apply]
  unfold Async.bind getManager
  simp only [hneeds, hreq, hnvm, hn, Bool.not_true, Bool.false_eq_true, if_false]
  rfl

/-- C7 (instance): on the simulated machine without nvm and without `n`, with `18.20.0`
active and `20.18.0` required. -/
theorem switchToRequiredVersion_without_backend_witness :
    switchToRequiredVersion (simHost plainSetup)
      { manager := ⟨some (lit "18.20.0"), some (lit "20.18.0"), false, false⟩,
        host := { nodeOutput := lit "v18.20.0", installed := [], files := [], hasN := false },
        calls := [] }
      = (.ok false,
        { manager := ⟨some (lit "18.20.0"), some (lit "20.18.0"), false, false⟩,
          host := { nodeOutput := lit "v18.20.0", installed := [], files := [], hasN := false },
          calls := [] }) :=
  switchToRequiredVersion_without_backend (simHost plainSetup) _ rfl rfl (by decide)

end Switching

/-! ## The scoped run -/

section ScopedRun

variable {σ ε ρ : Type}

theorem modifyManager_noThrow (f : Manager → Manager) :
    Async.NoThrow (modifyManager f : Async σ ε Unit) :=
  fun s => ⟨(), { s with manager := f s.manager }, rfl⟩

theorem getManager_noThrow : Async.NoThrow (getManager : Async σ ε Manager) :=
  fun s => ⟨s.manager, s, rfl⟩

theorem checkNvmAvailable_noThrow (h : Host σ ε) : Async.NoThrow (checkNvmAvailable h) :=
  Async.noThrow_tryCatch _ (fun _ => Async.noThrow_pure false)

theorem checkNAvailable_noThrow (h : Host σ ε) : Async.NoThrow (checkNAvailable h) :=
  fun _ => ⟨_, _, rfl⟩

theorem getRequiredVersion_noThrow (h : Host σ ε) : Async.NoThrow (getRequiredVersion h) :=
  Async.noThrow_tryCatch _ (fun _ => Async.noThrow_pure none)

theorem switchToRequiredVersion_noThrow (h : Host σ ε) :
    Async.NoThrow (switchToRequiredVersion h) := by
  unfold switchToRequiredVersion
  refine Async.noThrow_bind getManager_noThrow (fun self => ?_)
  split_ifs
  all_goals
    first
      | exact Async.noThrow_pure _
      | exact Async.noThrow_tryCatch _ (fun _ => Async.noThrow_pure false)

/-- The steps of `initialize` after the detection of the current version. -/
theorem initializeManager_of_detected (h : Host σ ε) (s s1 : State σ) (version : List Char)
    (hversion : getCurrentNodeVersion h s = (.ok version, s1)) :
    ∃ s2, initializeManager h s = (.ok (), s2) := by
  unfold initializeManager
  rw [Async.bind_ok hversion]
  have hrest : Async.NoThrow (σ := σ) (ε := ε) (do
      modifyManager fun m => { m with originalVersion := some version }
      let nvmAvailable ← checkNvmAvailable h
      modifyManager fun m => { m with nvmAvailable := nvmAvailable }
      let nAvailable ← checkNAvailable h
      modifyManager fun m => { m with nAvailable := nAvailable }
      let requiredVersion ← getRequiredVersion h
      modifyManager fun m => { m with requiredVersion := requiredVersion }) :=
    Async.noThrow_bind (modifyManager_noThrow _) fun _ =>
      Async.noThrow_bind (checkNvmAvailable_noThrow h) fun _ =>
        Async.noThrow_bind (modifyManager_noThrow _) fun _ =>
          Async.noThrow_bind (checkNAvailable_noThrow h) fun _ =>
            Async.noThrow_bind (modifyManager_noThrow _) fun _ =>
              Async.noThrow_bind (getRequiredVersion_noThrow h) fun _ =>
                modifyManager_noThrow _
  obtain ⟨u, s2, h2⟩ := hrest s1
  exact ⟨s2, h2⟩

/-- The `finally` block of `withCorrectVersion`: it never throws and ends in the state that
`switchBackToOriginal` leaves. -/
theorem restoreQuietly_apply (h : Host σ ε) (s : State σ) :
    Async.tryCatch
      (do
        let _ ← switchBackToOriginal h
        return ())
      (fun _ => pure ()) s = (.ok (), (switchBackToOriginal h s).2) := by
  rcases Async.result_cases (switchBackToOriginal h) s with ⟨b, s1, h1⟩ | ⟨e, s1, h1⟩
  · have : (switchBackToOriginal h >>= fun _ => (pure () : Async σ ε Unit)) s = (.ok (), s1) := by
      rw [Async.bind_ok h1]
      rfl
    rw [Async.tryCatch_ok this, h1]
  · have : (switchBackToOriginal h >>= fun _ => (pure () : Async σ ε Unit)) s
        = (.error e, s1) := Async.bind_error h1
    rw [Async.tryCatch_error this, h1]
    rfl

theorem runCallback_apply (callback : σ → Except ε ρ × σ) (s : State σ) :
    runCallback callback s =
      ((callback s.host).1.mapError Fault.thrown,
        { s with host := (callback s.host).2, calls := s.calls ++ [Call.callback] }) := by
  unfold runCallback
  rcases callback s.host with ⟨r, t⟩
  cases r <;> rfl

/-- The run of `withCorrectVersion` when the version detection of `initialize` succeeds:
`initialize` and `switchToRequiredVersion` complete, then the work runs, then
`switchBackToOriginal`; the outcome is that of the work. -/
theorem withCorrectVersion_run (h : Host σ ε) (callback : σ → Except ε ρ × σ) (s : State σ)
    (stdout : List Char) (t : σ)
    (hdetect : h.executeCommand (lit "node") [some (lit "--version")] s.host
      = (.ok stdout, t)) :
    ∃ (si : State σ) (switched : Bool) (s1 : State σ),
      initializeManager h { s with manager := Manager.new } = (.ok (), si) ∧
      switchToRequiredVersion h si = (.ok switched, s1) ∧
      withCorrectVersion h callback s =
        ((callback s1.host).1.mapError Fault.thrown,
          (switchBackToOriginal h
            { s1 with host := (callback s1.host).2,
                      calls := s1.calls ++ [Call.callback] }).2) := by
  have hversion : getCurrentNodeVersion h { s with manager := Manager.new }
      = (.ok (replaceFirst 'v' stdout),
          { s with manager := Manager.new, host := t, calls := s.calls ++ [versionCall] }) := by
    rw [getCurrentNodeVersion_apply]
    simp only [hdetect]
  obtain ⟨si, hinit⟩ := initializeManager_of_detected h _ _ _ hversion
  obtain ⟨switched, s1, hswitch⟩ := switchToRequiredVersion_noThrow h si
  have hwork := runCallback_apply callback s1
  refine ⟨si, switched, s1, hinit, hswitch, ?_⟩
  unfold withCorrectVersion Async.tryFinally
  rw [Async.bind_ok hinit, Async.bind_ok hswitch]
  have hbody : (runCallback callback >>= fun result => (pure result : Async σ ε ρ)) s1
      = runCallback callback s1 := by
    rcases Async.result_cases (runCallback callback) s1 with ⟨a, s2, h2⟩ | ⟨e, s2, h2⟩
    · rw [Async.bind_ok h2, h2]
      rfl
    · rw [Async.bind_error h2, h2]
  rw [hbody, hwork]
  simp only [restoreQuietly_apply]

/-- C1: when the version detection of `initialize` succeeds, `initialize` and
`switchToRequiredVersion` complete whatever the external commands do, the work runs next, and
`withCorrectVersion` yields exactly the outcome of the work - its return value, or its fault
unchanged - in the state that `switchBackToOriginal` leaves when run after the work: neither
the result of the switch nor a fault of the restoration reaches the caller. -/
theorem withCorrectVersion_yields_work_outcome (h : Host σ ε)
    (callback : σ → Except ε ρ × σ) (s : State σ) (stdout : List Char) (t : σ)
    (hdetect : h.executeCommand (lit "node") [some (lit "--version")] s.host
      = (.ok stdout, t)) :
    ∃ (switched : Bool) (s1 : State σ),
      (initializeManager h >>= fun _ => switchToRequiredVersion h)
        { s with manager := Manager.new } = (.ok switched, s1) ∧
      (withCorrectVersion h callback s).1 = (callback s1.host).1.mapError Fault.thrown ∧
      (withCorrectVersion h callback s).2
        = (switchBackToOriginal h
            { s1 with host := (callback s1.host).2, calls := s1.calls ++ [Call.callback] }).2 := by
  obtain ⟨si, switched, s1, hinit, hswitch, hrun⟩ :=
    withCorrectVersion_run h callback s stdout t hdetect
  refine ⟨switched, s1, ?_, ?_, ?_⟩
  · rw [Async.bind_ok hinit, hswitch]
  · rw [hrun]
  · rw [hrun]

end ScopedRun

/-! ## The manager is set by `initialize` only -/

section ManagerFields

variable {σ ε ρ α : Type}

theorem hostRead_keeps (f : σ → Except ε α) : Async.KeepsManager (hostRead f : Async σ ε α) := by
  intro s
  unfold hostRead
  split <;> rfl

theorem fileExists_keeps (h : Host σ ε) (path : List Char) :
    Async.KeepsManager (FileUtils.fileExists h path) := by
  intro s
  unfold FileUtils.fileExists
  split <;> rfl

theorem readFile_keeps (h : Host σ ε) (path : List Char) :
    Async.KeepsManager (FileUtils.readFile h path) := by
  intro s
  unfold FileUtils.readFile
  split <;> rfl

theorem jsonParse_keeps (h : Host σ ε) (text : List Char) :
    Async.KeepsManager (jsonParse h text) := by
  intro s
  unfold jsonParse
  split <;> rfl

theorem liftSync_keeps (r : Except TypeError α) :
    Async.KeepsManager (liftSync r : Async σ ε α) := by
  intro s
  cases r <;> rfl

theorem runCallback_keeps (callback : σ → Except ε ρ × σ) :
    Async.KeepsManager (runCallback callback : Async σ ε ρ) := by
  intro s
  unfold runCallback
  split <;> rfl

theorem checkNvmAvailable_keeps (h : Host σ ε) : Async.KeepsManager (checkNvmAvailable h) :=
  Async.keepsManager_tryCatch
    (Async.keepsManager_bind (nvmScriptPath_keeps h) fun _ => fileExists_keeps h _)
    (fun _ => Async.keepsManager_pure false)

theorem checkNAvailable_keeps (h : Host σ ε) : Async.KeepsManager (checkNAvailable h) :=
  fun _ => rfl

theorem manifestVersion_keeps (h : Host σ ε) : Async.KeepsManager (manifestVersion h) := by
  unfold manifestVersion
  refine Async.keepsManager_bind (hostRead_keeps _) fun cwd => ?_
  refine Async.keepsManager_bind (fileExists_keeps h _) fun b => ?_
  split_ifs
  · exact Async.keepsManager_bind (readFile_keeps h _) fun _ =>
      Async.keepsManager_bind (jsonParse_keeps h _) fun _ => liftSync_keeps _
  · exact Async.keepsManager_pure none

theorem getRequiredVersion_keeps (h : Host σ ε) : Async.KeepsManager (getRequiredVersion h) := by
  unfold getRequiredVersion
  refine Async.keepsManager_tryCatch ?_ (fun _ => Async.keepsManager_pure none)
  refine Async.keepsManager_bind (hostRead_keeps _) fun cwd => ?_
  refine Async.keepsManager_bind (fileExists_keeps h _) fun b => ?_
  split_ifs
  · exact Async.keepsManager_bind (readFile_keeps h _) fun _ => Async.keepsManager_pure _
  · exact manifestVersion_keeps h

theorem executeNvmCommand_keeps (h : Host σ ε) (args : List (Option (List Char))) :
    Async.KeepsManager (executeNvmCommand h args) :=
  Async.keepsManager_bind (nvmScriptPath_keeps h) fun _ => executeCommand_keeps h _ _

theorem verifySwitch_keeps (h : Host σ ε) : Async.KeepsManager (verifySwitch h) := by
  unfold verifySwitch
  refine Async.keepsManager_bind (getCurrentNodeVersion_keeps h) fun _ => ?_
  refine Async.keepsManager_bind getManager_keeps fun _ => ?_
  refine Async.keepsManager_bind (orTypeError_keeps _) fun _ => ?_
  split_ifs
  · exact Async.keepsManager_pure true
  · exact Async.keepsManager_throw _

theorem switchWithNvm_keeps (h : Host σ ε) : Async.KeepsManager (switchWithNvm h) := by
  unfold switchWithNvm
  refine Async.keepsManager_tryCatch ?_ (fun _ => Async.keepsManager_pure false)
  refine Async.keepsManager_bind getManager_keeps fun self => ?_
  refine Async.keepsManager_bind (executeNvmCommand_keeps h _) fun _ => ?_
  split_ifs
  · exact Async.keepsManager_bind (executeNvmCommand_keeps h _) fun _ =>
      Async.keepsManager_bind (executeNvmCommand_keeps h _) fun _ => verifySwitch_keeps h
  · exact Async.keepsManager_bind (executeNvmCommand_keeps h _) fun _ => verifySwitch_keeps h

theorem switchWithN_keeps (h : Host σ ε) : Async.KeepsManager (switchWithN h) := by
  unfold switchWithN
  refine Async.keepsManager_tryCatch ?_ (fun _ => Async.keepsManager_pure false)
  refine Async.keepsManager_bind getManager_keeps fun self => ?_
  exact Async.keepsManager_bind (executeCommand_keeps h _ _) fun _ => verifySwitch_keeps h

theorem switchToRequiredVersion_keeps (h : Host σ ε) :
    Async.KeepsManager (switchToRequiredVersion h) := by
  unfold switchToRequiredVersion
  refine Async.keepsManager_bind getManager_keeps fun self => ?_
  split_ifs
  all_goals
    first
      | exact Async.keepsManager_pure _
      | exact Async.keepsManager_tryCatch (switchWithNvm_keeps h)
          (fun _ => Async.keepsManager_pure false)
      | exact Async.keepsManager_tryCatch (switchWithN_keeps h)
          (fun _ => Async.keepsManager_pure false)

/-- The original version recorded by `initialize` is the version it detected. -/
theorem initializeManager_original (h : Host σ ε) (s s1 : State σ) (version : List Char)
    (hversion : getCurrentNodeVersion h s = (.ok version, s1)) :
    (initializeManager h s).2.manager.originalVersion = some version := by
  unfold initializeManager
  rw [Async.bind_ok hversion]
  have hset : (modifyManager fun m => { m with originalVersion := some version } :
      Async σ ε Unit) s1
      = (.ok (), { s1 with manager := { s1.manager with originalVersion := some version } }) :=
    rfl
  rw [Async.bind_ok hset]
  obtain ⟨a, s2, h2⟩ := checkNvmAvailable_noThrow h
    { s1 with manager := { s1.manager with originalVersion := some version } }
  have k2 := checkNvmAvailable_keeps h
    { s1 with manager := { s1.manager with originalVersion := some version } }
  rw [h2] at k2
  rw [Async.bind_ok h2]
  have hset2 : (modifyManager fun m => { m with nvmAvailable := a } : Async σ ε Unit) s2
      = (.ok (), { s2 with manager := { s2.manager with nvmAvailable := a } }) := rfl
  rw [Async.bind_ok hset2]
  obtain ⟨b, s3, h3⟩ := checkNAvailable_noThrow h
    { s2 with manager := { s2.manager with nvmAvailable := a } }
  have k3 := checkNAvailable_keeps h
    { s2 with manager := { s2.manager with nvmAvailable := a } }
  rw [h3] at k3
  rw [Async.bind_ok h3]
  have hset3 : (modifyManager fun m => { m with nAvailable := b } : Async σ ε Unit) s3
      = (.ok (), { s3 with manager := { s3.manager with nAvailable := b } }) := rfl
  rw [Async.bind_ok hset3]
  obtain ⟨r, s4, h4⟩ := getRequiredVersion_noThrow h
    { s3 with manager := { s3.manager with nAvailable := b } }
  have k4 := getRequiredVersion_keeps h
    { s3 with manager := { s3.manager with nAvailable := b } }
  rw [h4] at k4
  rw [Async.bind_ok h4]
  show (modifyManager (fun m => { m with requiredVersion := r }) s4 :
    Except (Fault ε) Unit × State σ).2.manager.originalVersion = some version
  simp only [modifyManager]
  simp only [] at k2 k3 k4
  rw [k4, k3, k2]

end ManagerFields

/-! ## Round trip of the active version -/

section RoundTrip

variable {σ ε ρ : Type}

theorem getCurrentNodeVersion_of_reads (h : Host σ ε) (s : State σ) (v : List Char)
    (hv : ReadsVersion h s.host v) :
    getCurrentNodeVersion h s = (.ok v, { s with calls := s.calls ++ [versionCall] }) := by
  obtain ⟨out, hout, hrep⟩ := hv
  rw [getCurrentNodeVersion_apply, hout, ← hrep]

/-- After the activation step (whatever its outcome) the `try` block of
`switchBackToOriginal` and its handler leave the host where the activation left it. -/
theorem tryCatch_after_activation (h : Host σ ε) (activation : Async σ ε (List Char))
    (s : State σ) (v : List Char) (hv : ReadsVersion h (activation s).2.host v) :
    ReadsVersion h
      (Async.tryCatch
        (activation >>= fun _ => (pure PUnit.unit : Async σ ε PUnit) >>= fun _ =>
          getCurrentNodeVersion h >>= fun _ => (pure true : Async σ ε Bool))
        (fun _ => pure false) s).2.host v := by
  rcases Async.result_cases activation s with ⟨a, s1, h1⟩ | ⟨e, s1, h1⟩
  · rw [h1] at hv
    have hread := getCurrentNodeVersion_of_reads h s1 v hv
    have hskip : (pure PUnit.unit : Async σ ε PUnit) s1 = (.ok PUnit.unit, s1) := rfl
    have hbody : (activation >>= fun _ => (pure PUnit.unit : Async σ ε PUnit) >>= fun _ =>
        getCurrentNodeVersion h >>= fun _ => (pure true : Async σ ε Bool)) s
        = (.ok true, { s1 with calls := s1.calls ++ [versionCall] }) := by
      rw [Async.bind_ok h1, Async.bind_ok hskip, Async.bind_ok hread]
      rfl
    rw [Async.tryCatch_ok hbody]
    exact hv
  · rw [h1] at hv
    have hbody : (activation >>= fun _ => (pure PUnit.unit : Async σ ε PUnit) >>= fun _ =>
        getCurrentNodeVersion h >>= fun _ => (pure true : Async σ ε Bool)) s
        = (.error e, s1) := Async.bind_error h1
    rw [Async.tryCatch_error hbody]
    exact hv

theorem switchBackToOriginal_restores (h : Host σ ε) (s : State σ) (v0 : List Char)
    (hquery : ∀ t, ∃ v, ReadsVersion h t v)
    (horiginal : s.manager.originalVersion = some v0) (hne : v0 ≠ [])
    (hact : ActivationWorks h s.manager v0) :
    ReadsVersion h (switchBackToOriginal h s).2.host v0 := by
  have htruthy : truthy (some v0) = true := by
    cases v0 with
    | nil => exact absurd rfl hne
    | cons c cs => rfl
  obtain ⟨cur, hcur⟩ := hquery s.host
  rw [switchBackToOriginal_apply, horiginal, if_pos htruthy,
    Async.bind_ok (getCurrentNodeVersion_of_reads h s cur hcur)]
  by_cases heq : some cur = some v0
  · rw [if_pos heq]
    have : cur = v0 := Option.some.inj heq
    rw [← this]
    exact hcur
  · rw [if_neg heq]
    unfold activateOriginal
    rcases hact with ⟨hnvm, hworks⟩ | ⟨hnvm, hn, hworks⟩
    · rw [hnvm, horiginal]
      simp only [if_true]
      exact tryCatch_after_activation h _ _ v0 (hworks _)
    · rw [hnvm, hn, horiginal]
      simp only [Bool.false_eq_true, if_false, if_true]
      exact tryCatch_after_activation h _ _ v0 (hworks _)

/-- C6 (counterexample): on `systemNodeMachine` the version active before the scoped run is
`18.20.0`; the run switches to `20.18.0` through nvm, the work returns, and the restoration
fails because `nvm use 18.20.0` knows no such installed version: the run completes with the
work's result while the active version is `20.18.0`. -/
theorem withCorrectVersion_leaves_other_version :
    (getCurrentNodeVersion (simHost plainSetup) (startState systemNodeMachine)).1
      = .ok (lit "18.20.0") ∧
    (withCorrectVersion (simHost plainSetup) quietWork (startState systemNodeMachine)).1
      = .ok 7 ∧
    (getCurrentNodeVersion (simHost plainSetup)
      (withCorrectVersion (simHost plainSetup) quietWork (startState systemNodeMachine)).2).1
      = .ok (lit "20.18.0") := by
  refine ⟨rfl, rfl, rfl⟩

/-- C6 (amended): when the print-version command is a query that always succeeds and changes
nothing, the version active before the call is not the empty text, and the activation command
of the backend that `initialize` detects (nvm preferred, else `n`) leaves the original version
active, then after `withCorrectVersion` the active version is the one that was active before
the call, for every work unit and whatever the switch and the work did. -/
theorem withCorrectVersion_restores_active_version (h : Host σ ε)
    (callback : σ → Except ε ρ × σ) (s : State σ) (v0 : List Char)
    (hquery : ∀ t, ∃ v, ReadsVersion h t v)
    (hbefore : ReadsVersion h s.host v0) (hne : v0 ≠ [])
    (hact : ActivationWorks h
      (initializeManager h { s with manager := Manager.new }).2.manager v0) :
    ReadsVersion h (withCorrectVersion h callback s).2.host v0 := by
  have hversion := getCurrentNodeVersion_of_reads h { s with manager := Manager.new } v0 hbefore
  obtain ⟨out, hout, -⟩ := hbefore
  obtain ⟨si, switched, s1, hinit, hswitch, hrun⟩ :=
    withCorrectVersion_run h callback s out s.host hout
  have horiginal := initializeManager_original h _ _ v0 hversion
  have hkeep := switchToRequiredVersion_keeps h si
  rw [hswitch] at hkeep
  simp only [] at hkeep
  rw [hinit] at horiginal hact
  simp only [] at horiginal hact
  rw [hrun]
  apply switchBackToOriginal_restores h _ v0 hquery
  · show s1.manager.originalVersion = some v0
    rw [hkeep]
    exact horiginal
  · exact hne
  · show ActivationWorks h s1.manager v0
    rw [hkeep]
    exact hact

/-- C6 (instance of the amended claim): on `machineWithN` the scoped run switches to `20.18.0`
with `n` and back; afterwards `18.20.0` is active again. -/
theorem withCorrectVersion_restores_active_version_witness :
    ReadsVersion (simHost plainSetup)
      (withCorrectVersion (simHost plainSetup) quietWork (startState machineWithN)).2.host
      (lit "18.20.0") :=
  withCorrectVersion_restores_active_version (simHost plainSetup) quietWork
    (startState machineWithN) (lit "18.20.0")
    (fun t => ⟨replaceFirst 'v' t.nodeOutput, t.nodeOutput, rfl, rfl⟩)
    ⟨lit "v18.20.0", rfl, rfl⟩ (by decide)
    (Or.inr ⟨rfl, rfl, fun _ => ⟨'v' :: lit "18.20.0", rfl, rfl⟩⟩)

end RoundTrip

/-! ## Instances on the simulated machine -/

section Instances

/-- C1 (instance): on `machineWithN` with a work unit that raises `boom`, the scoped run raises
`boom`, in the state left by the restoration run after the work. -/
theorem withCorrectVersion_yields_work_outcome_witness :
    (simHost plainSetup).executeCommand (lit "node") [some (lit "--version")]
        (startState machineWithN).host = (.ok (lit "v18.20.0"), machineWithN) ∧
    ∃ (switched : Bool) (s1 : State Machine),
      (initializeManager (simHost plainSetup) >>= fun _ =>
          switchToRequiredVersion (simHost plainSetup))
        { startState machineWithN with manager := Manager.new } = (.ok switched, s1) ∧
      (withCorrectVersion (simHost plainSetup) failingWork (startState machineWithN)).1
        = (failingWork s1.host).1.mapError Fault.thrown ∧
      (withCorrectVersion (simHost plainSetup) failingWork (startState machineWithN)).2
        = (switchBackToOriginal (simHost plainSetup)
            { s1 with host := (failingWork s1.host).2,
                      calls := s1.calls ++ [Call.callback] }).2 :=
  ⟨rfl, withCorrectVersion_yields_work_outcome (simHost plainSetup) failingWork
    (startState machineWithN) (lit "v18.20.0") machineWithN rfl⟩

/-- C10 (instance): on a machine without backend where `20.18.0` is active and `18.20.0` was
recorded, the restoration returns true after two reads of the version and nothing else. -/
theorem switchBackToOriginal_without_backend_witness :
    switchBackToOriginal (simHost plainSetup)
      { manager := ⟨some (lit "18.20.0"), none, false, false⟩,
        host := { nodeOutput := lit "v20.18.0", installed := [], files := [], hasN := false },
        calls := [] }
      = if lit "18.20.0" = [] then
          (.ok true,
            { manager := ⟨some (lit "18.20.0"), none, false, false⟩,
              host := { nodeOutput := lit "v20.18.0", installed := [], files := [],
                        hasN := false },
              calls := [] })
        else
          (.ok true,
            { manager := ⟨some (lit "18.20.0"), none, false, false⟩,
              host := { nodeOutput := lit "v20.18.0", installed := [], files := [],
                        hasN := false },
              calls := [] ++ [versionCall, versionCall] }) :=
  switchBackToOriginal_without_backend (simHost plainSetup)
    { manager := ⟨some (lit "18.20.0"), none, false, false⟩,
      host := { nodeOutput := lit "v20.18.0", installed := [], files := [], hasN := false },
      calls := [] }
    (lit "18.20.0") (lit "v20.18.0") (lit "v20.18.0")
    { nodeOutput := lit "v20.18.0", installed := [], files := [], hasN := false }
    { nodeOutput := lit "v20.18.0", installed := [], files := [], hasN := false }
    rfl rfl rfl rfl (by decide) rfl

/-- C5 (failing input): the required version is `2.0.0` and, after the activation, the version
read again is `20.18.0` (the backends do not reach the `node` on the search path).  The major
components `20` and `2` differ, as text and as numbers, yet `switchWithN` and `switchWithNvm`
both return true, because `20.18.0` starts with `2`. -/
theorem backend_switch_accepts_other_major :
    (switchWithN (simHost shadowedSetup)
      { manager := ⟨some (lit "20.18.0"), some (lit "2.0.0"), false, true⟩,
        host := node20Machine, calls := [] }).1 = .ok true ∧
    (switchWithNvm (simHost shadowedSetup)
      { manager := ⟨some (lit "20.18.0"), some (lit "2.0.0"), true, true⟩,
        host := node20Machine, calls := [] }).1 = .ok true ∧
    (getCurrentNodeVersion (simHost shadowedSetup)
      (switchWithN (simHost shadowedSetup)
        { manager := ⟨some (lit "20.18.0"), some (lit "2.0.0"), false, true⟩,
          host := node20Machine, calls := [] }).2).1 = .ok (lit "20.18.0") ∧
    major (lit "20.18.0") ≠ major (lit "2.0.0") ∧
    (parseInt (major (lit "20.18.0"))).strictNe (parseInt (major (lit "2.0.0"))) = true := by
  refine ⟨rfl, rfl, rfl, by decide, by decide⟩

/-- C2 (instances of the amended claim): with a failing `node --version` the restoration from
`restoreState` raises the detection fault; with a working one it returns a boolean. -/
theorem switchBackToOriginal_boolean_unless_detection_fails_witness :
    (switchBackToOriginal (simHost { nodeBroken := true, shadowed := false }) restoreState).1
      = .error detectionFault ∧
    ∃ b : Bool, (switchBackToOriginal (simHost plainSetup) restoreState).1 = .ok b :=
  ⟨(switchBackToOriginal_boolean_unless_detection_fails
      (simHost { nodeBroken := true, shadowed := false }) restoreState).1
      ⟨rfl, lit "spawn node ENOENT", restoreState.host, rfl⟩,
   (switchBackToOriginal_boolean_unless_detection_fails (simHost plainSetup) restoreState).2
      (by
        rintro ⟨-, e, t, hx⟩
        have h2 : ((Except.ok (lit "v20.18.0") : Except (List Char) (List Char)),
            restoreState.host) = (.error e, t) := hx
        cases h2)⟩

/-- C4 (instance): the text `>=16.0.0` does not contain `>=18.0.0` and resolves to absent. -/
theorem parseVersionRange_eq_table_witness :
    ¬ lit ">=18.0.0" <:+: lit ">=16.0.0" ∧
    parseVersionRange (.string (lit ">=16.0.0")) = .ok none :=
  ⟨by decide, (parseVersionRange_eq_table (lit ">=16.0.0")).2.2.2.2.2.2 (by decide)⟩

/-- C8 (instance of the amended claim): the output `v18.20.0` gives the version `18.20.0`. -/
theorem getCurrentNodeVersion_removes_first_v_witness :
    (getCurrentNodeVersion (simHost plainSetup) (startState machineWithN)).1
      = .ok (lit "18.20.0") :=
  (getCurrentNodeVersion_removes_first_v (simHost plainSetup) (startState machineWithN)).2.1
    (lit "18.20.0") machineWithN rfl

/-- C9 (instances): with the version-pin file `20.18.0` the required version is its trimmed
contents `20.18.0`; without pin file and with the manifest `manifestText` it is
`parseVersionRange` of the constraint `>=18.0.0 <23.0.0`, which is `20.18.0`. -/
theorem getRequiredVersion_follows_order_witness :
    ((getRequiredVersion (simHost plainSetup) (startState machineWithN)).1
      = .ok (some (trim (lit "20.18.0\n"))) ∧ trim (lit "20.18.0\n") = lit "20.18.0") ∧
    ((getRequiredVersion (simHost plainSetup) (startState manifestMachine)).1
      = (parseVersionRange (.string (lit ">=18.0.0 <23.0.0"))).mapError
          (fun _ => Fault.typeError) ∧
      parseVersionRange (.string (lit ">=18.0.0 <23.0.0")) = .ok (some (lit "20.18.0"))) :=
  ⟨⟨(getRequiredVersion_follows_order (simHost plainSetup) (startState machineWithN)).2.1
      (lit "/work") machineWithN (lit "20.18.0\n") machineWithN rfl rfl rfl, by decide⟩,
   ⟨(getRequiredVersion_follows_order (simHost plainSetup) (startState manifestMachine)).2.2.1
      (lit "/work") manifestMachine (lit "/work") manifestMachine manifestText manifestMachine
      [(lit "engines", .object [(lit "node", .string (lit ">=18.0.0 <23.0.0"))])]
      [(lit "node", .string (lit ">=18.0.0 <23.0.0"))] (lit ">=18.0.0 <23.0.0")
      rfl rfl rfl rfl rfl rfl rfl rfl, rfl⟩⟩

end Instances

end NodeVersionManager
